import Mathlib

/-!
Reading Comprehension demo: verification development

A shallow embedding of `demo/src/components/demos/ReadingComprehension.js`.

Modelling conventions.

* A JavaScript string is a sequence of code units; it is modelled as `Str = List Char`,
  one `Char` per code unit.  The empty string is the only falsy string.
* `undefined` (a missing property or prop) is modelled by `Option`: `none` is `undefined`.
  Arrays and objects are always truthy.
* Character offsets, signs and numeric values are integers (`Int`).
* A React element is modelled by the data that determines it: its kind, its props and its
  children.
-/

namespace ReadingComprehension

/-! ## Definitions: strings and slicing -/

/-- A JavaScript string, as the list of its code units. -/
abbrev Str := List Char

/-- JavaScript truthiness of a string value: every string but the empty one is truthy. -/
def truthy (s : Str) : Bool := !s.isEmpty

/-- JavaScript truthiness of a possibly undefined string. -/
def truthyStr : Option Str → Bool
  | none => false
  | some s => truthy s

/-- The index normalisation of `String.prototype.slice`: a negative index counts from the
end of the string, and the result is clamped to `[0, len]`. -/
def relIndex (len : Nat) (i : Int) : Nat :=
  if i < 0 then ((len : Int) + i).toNat else min i.toNat len

/-- The method `String.prototype.slice(start, stop)`; `stop = none` is the one-argument call
`slice(start)`. -/
def jsSlice (s : Str) (start : Int) (stop : Option Int) : Str :=
  let len := s.length
  let lo := relIndex len start
  let hi := match stop with
    | none => len
    | some e => relIndex len e
  (s.drop lo).take (hi - lo)

/-! ## Definitions: `MultiSpanHighlight` -/

/-- A span `[s[0], s[1]]` of character offsets. -/
abbrev Span := Int × Int

/-- One `<span key=... className=...>text</span>` pushed to `spanList`.  The key
`${a}_${b}` is kept as the pair `(a, b)`; `className = none` is a span without a class. -/
structure Segment where
  key : Int × Int
  className : Option Str
  text : Str
  deriving DecidableEq, Repr

/-- The two mutable variables of `MultiSpanHighlight`. -/
structure HState where
  curIndex : Int
  spanList : List Segment
  deriving DecidableEq, Repr

/-- The body of the `forEach` callback of `MultiSpanHighlight`, for span `s` at index
`sIndex`. -/
def highlightStep (original : Str) (highlightStyles : List Str) (st : HState) (s : Span)
    (sIndex : Nat) : HState :=
  let st1 : HState :=
    if s.1 > st.curIndex then
      { curIndex := s.1
        spanList := st.spanList ++
          [{ key := (st.curIndex, s.1), className := none,
             text := jsSlice original st.curIndex (some s.1) }] }
    else st
  if s.2 > st1.curIndex then
    { curIndex := s.2
      spanList := st1.spanList ++
        [{ key := (st1.curIndex, s.2), className := highlightStyles[sIndex]?,
           text := jsSlice original st1.curIndex (some s.2) }] }
  else st1

/-- The loop `highlightSpans.forEach((s, sIndex) => ...)`, started at index `sIndex`. -/
def forEachSpan (original : Str) (highlightStyles : List Str) :
    List Span → Nat → HState → HState
  | [], _, st => st
  | s :: rest, sIndex, st =>
    forEachSpan original highlightStyles rest (sIndex + 1)
      (highlightStep original highlightStyles st s sIndex)

/-- The trailing step of `MultiSpanHighlight`: the last non-highlighted span. -/
def pushLast (original : Str) (st : HState) : List Segment :=
  if st.curIndex < (original.length : Int) then
    st.spanList ++
      [{ key := (st.curIndex, (original.length : Int)), className := none,
         text := jsSlice original st.curIndex none }]
  else st.spanList

/-- The component `MultiSpanHighlight`: the children of the returned `<span>`, or `none`
for the `null` result. -/
def MultiSpanHighlight (original : Option Str) (highlightSpans : Option (List Span))
    (highlightStyles : Option (List Str)) : Option (List Segment) :=
  match original, highlightSpans, highlightStyles with
  | some o, some spans, some styles =>
    if truthy o then
      some (pushLast o (forEachSpan o styles spans 0 { curIndex := 0, spanList := [] }))
    else none
  | _, _, _ => none

/-- The text shown by a segment list: the concatenation of the segment texts. -/
def segmentsText (segs : List Segment) : Str := (segs.map Segment.text).flatten

/-- The styled segments of a segment list, in order, as (text, style) pairs. -/
def styledSegments (segs : List Segment) : List (Str × Str) :=
  segs.filterMap fun g => g.className.map fun c => (g.text, c)

/-- The spans lie inside the string: `0 ≤ start ≤ end ≤ length`. -/
def SpansOver (T : Str) (S : List Span) : Prop :=
  ∀ s ∈ S, 0 ≤ s.1 ∧ s.1 ≤ s.2 ∧ s.2 ≤ (T.length : Int)

/-- The spans are ascending and do not overlap, and the first one starts at or after
`cur`: each one starts at or after the end of the one before it. -/
def AscendingFrom (cur : Int) : List Span → Prop
  | [] => True
  | s :: rest => cur ≤ s.1 ∧ AscendingFrom s.2 rest

/-- An ascending, non-overlapping span list; nothing is asked of the first start. -/
def Ascending : List Span → Prop
  | [] => True
  | s :: rest => AscendingFrom s.2 rest

/-- Deciding `AscendingFrom`, by recursion on the list. -/
def decAscendingFrom : (cur : Int) → (S : List Span) → Decidable (AscendingFrom cur S)
  | _, [] => isTrue trivial
  | cur, s :: rest => @instDecidableAnd (cur ≤ s.1) _ _ (decAscendingFrom s.2 rest)

instance (cur : Int) (S : List Span) : Decidable (AscendingFrom cur S) := decAscendingFrom cur S

/-- Every span is non-empty and inside the string: `0 ≤ start < end ≤ length`. -/
def ProperSpansOver (T : Str) (S : List Span) : Prop :=
  ∀ s ∈ S, 0 ≤ s.1 ∧ s.1 < s.2 ∧ s.2 ≤ (T.length : Int)

instance (T : Str) (S : List Span) : Decidable (SpansOver T S) := by
  unfold SpansOver; infer_instance

instance : (S : List Span) → Decidable (Ascending S)
  | [] => isTrue trivial
  | s :: rest => decAscendingFrom s.2 rest

instance (T : Str) (S : List Span) : Decidable (ProperSpansOver T S) := by
  unfold ProperSpansOver; infer_instance

/-- The segments a `MultiSpanHighlight` result puts on the page: a `null` result renders
nothing. -/
def emitted (r : Option (List Segment)) : List Segment := r.getD []

/-- The loop invariant: the cursor is not negative and the segments emitted so far spell
the string up to the cursor. -/
def CursorInv (T : Str) (st : HState) : Prop :=
  0 ≤ st.curIndex ∧ segmentsText st.spanList = T.take st.curIndex.toNat

/-! ## Definitions: `ArithmeticEquation` -/

/-- A number of the arithmetic answer: `{value, sign, span}`. -/
structure SignedNumber where
  value : Int
  sign : Int
  span : Span
  deriving DecidableEq, Repr

/-- The text of an integer inside a template literal, `${n}`: its decimal digits, after a
`-` when it is negative.  JavaScript prints an integer this way while its magnitude is below
`10^21`. -/
def numberToString (n : Int) : Str := (toString n).toList

/-- The template `${n.sign > 0 ? "+" : "-"} ${n.value}` of `ArithmeticEquation`. -/
def signedToken (n : SignedNumber) : Str :=
  (if n.sign > 0 then "+".toList else "-".toList) ++ " ".toList ++ numberToString n.value

/-- The loop of `Array.prototype.join`: element `k` is appended to the result `r`, after
the separator unless `k = 0`. -/
def joinLoop (sep : Str) : List Str → Nat → Str → Str
  | [], _, r => r
  | e :: es, k, r => joinLoop sep es (k + 1) ((if k > 0 then r ++ sep else r) ++ e)

/-- The method `Array.prototype.join(sep)` on an array of strings. -/
def jsJoin (sep : Str) (xs : List Str) : Str := joinLoop sep xs 0 []

/-- The loop `while (ret.charAt(0) === "+" || ret.charAt(0) === " ") ret = ret.substr(1)`.
On the empty string `charAt(0)` is `""` and the loop stops. -/
def stripLoop : Str → Str
  | [] => []
  | c :: cs => if c = '+' ∨ c = ' ' then stripLoop cs else c :: cs

/-- The component `ArithmeticEquation`: the text of the returned `<span>`, or `none` for
the `null` result. -/
def ArithmeticEquation (numbers : Option (List SignedNumber)) : Option Str :=
  match numbers with
  | some ns =>
    some (stripLoop (jsJoin " ".toList ((ns.filter fun n => n.sign ≠ 0).map signedToken)))
  | none => none

/-- The reference rendering of one entry, in the words of the specification: `+ <value>`
when the sign is positive and `- <value>` otherwise. -/
def specToken (n : SignedNumber) : Str :=
  if 0 < n.sign then '+' :: ' ' :: numberToString n.value
  else '-' :: ' ' :: numberToString n.value

/-- The reference definition of the arithmetic formatter, in the words of the
specification: drop the entries of sign 0, render the others as tokens, join the tokens
with single spaces, remove every leading `+` and space. -/
def arithmeticEquationSpec (numbers : List SignedNumber) : Str :=
  (List.intercalate [' '] ((numbers.filter fun n => !(n.sign == 0)).map specToken)).dropWhile
    fun c => c == '+' || c == ' '

/-! ## Definitions: `AnswerByType` -/

/-- The `value` of an answer: a string for the span answers, a number for the arithmetic
answer. -/
inductive Value where
  | str (s : Str)
  | num (n : Int)
  deriving DecidableEq, Repr

/-- JavaScript truthiness of a possibly undefined `value`: `undefined`, `""` and `0` are
falsy. -/
def truthyValue : Option Value → Bool
  | none => false
  | some (Value.str s) => truthy s
  | some (Value.num n) => !(n == 0)

/-- The object `responseData.answer`; a missing property is `none`. -/
structure Answer where
  answer_type : Option Str
  spans : Option (List Span)
  value : Option Value
  count : Option Int
  numbers : Option (List SignedNumber)
  deriving DecidableEq, Repr

/-- The empty object `{}` of `answer || {}`. -/
def emptyAnswer : Answer :=
  { answer_type := none, spans := none, value := none, count := none, numbers := none }

/-- The object `requestData`. -/
structure RequestData where
  passage : Option Str
  question : Option Str
  deriving DecidableEq, Repr

/-- The object `responseData`.  The attention weights are only handed on to the heat map;
they are kept as integers. -/
structure ResponseData where
  answer : Option Answer
  best_span_str : Option Str
  passage_question_attention : Option (List (List Int))
  question_tokens : Option (List Str)
  passage_tokens : Option (List Str)
  deriving DecidableEq, Repr

/-- The props of the `<HeatMap>` inside the "Model internals" field. -/
structure HeatMapProps where
  colLabels : List Str
  rowLabels : List Str
  data : List (List Int)
  deriving DecidableEq, Repr

/-- The component `Attention`, called with the response spread into its props: the heat
map of the "Model internals" field, or `none` for the `null` result. -/
def Attention (r : ResponseData) : Option HeatMapProps :=
  match r.passage_question_attention, r.question_tokens, r.passage_tokens with
  | some att, some q, some p => some { colLabels := q, rowLabels := p, data := att }
  | _, _, _ => none

/-- A child of an `<OutputField>`. -/
inductive Node where
  | text (s : Str)
  | number (n : Int)
  | value (v : Value)
  | span (className : Option Str) (text : Str)
  | multiSpanHighlight (r : Option (List Segment))
  | arithmeticEquation (r : Option Str)
  deriving DecidableEq, Repr

/-- An element `<OutputField label=...>children</OutputField>`. -/
structure OutputField where
  label : Str
  children : List Node
  deriving DecidableEq, Repr

/-- What `AnswerByType` returns: a bare `<OutputField>` (from `NoAnswer`) or a `<section>`
of output fields followed by the `<Attention>` element. -/
inductive Element where
  | outputField (f : OutputField)
  | section (fields : List OutputField) (attention : Option HeatMapProps)
  deriving DecidableEq, Repr

/-- The component `NoAnswer`. -/
def NoAnswer : Element :=
  Element.outputField { label := "Answer".toList, children := [Node.text "No answer returned.".toList] }

/-- Whether `pat` is read at the start of `s`. -/
def matchesHere (s pat : Str) : Bool := s.take pat.length == pat

/-- The search of `String.prototype.indexOf`: `k` is the index in the whole string of the
start of the remaining part. -/
def indexOfFrom (pat : Str) : Str → Nat → Int
  | [], k => if matchesHere [] pat then (k : Int) else -1
  | c :: cs, k => if matchesHere (c :: cs) pat then (k : Int) else indexOfFrom pat cs (k + 1)

/-- The method `String.prototype.indexOf(pat)`: the smallest index at which `pat` occurs, or
`-1`. -/
def indexOf (s pat : Str) : Int := indexOfFrom pat s 0

/-- The three spans of the "Passage Context" field of the legacy branch: `head`, the
answer string, `tail`. -/
def legacySplit (passage best_span_str : Str) : Str × Str × Str :=
  let start := indexOf passage best_span_str
  let head := jsSlice passage 0 (some start)
  let tail := jsSlice passage (start + (best_span_str.length : Int)) none
  (head, best_span_str, tail)

/-- The component `AnswerByType`. -/
def AnswerByType (requestData : Option RequestData) (responseData : Option ResponseData) :
    Element :=
  match requestData, responseData with
  | some req, some resp =>
    let passage := req.passage
    let question := req.question
    let answer := resp.answer.getD emptyAnswer
    if answer.answer_type = some "passage_span".toList then
      match question, passage, answer.spans, answer.value with
      | some q, some p, some spans, some value =>
        if truthy q && truthy p && truthyValue (some value) then
          Element.section
            [ { label := "Answer".toList, children := [Node.value value] },
              { label := "Explanation".toList,
                children := [Node.text "The model decided the answer was in the passage.".toList] },
              { label := "Passage".toList,
                children := [Node.multiSpanHighlight
                  (MultiSpanHighlight (some p) (some spans)
                    (some (spans.map fun _ => "highlight__answer".toList)))] },
              { label := "Question".toList, children := [Node.text q] } ]
            (Attention resp)
        else NoAnswer
      | _, _, _, _ => NoAnswer
    else if answer.answer_type = some "question_span".toList then
      match question, passage, answer.spans, answer.value with
      | some q, some p, some spans, some value =>
        if truthy q && truthy p && truthyValue (some value) then
          Element.section
            [ { label := "Answer".toList, children := [Node.value value] },
              { label := "Explanation".toList,
                children := [Node.text "The model decided the answer was in the question.".toList] },
              { label := "Passage".toList, children := [Node.text p] },
              { label := "Question".toList,
                children := [Node.multiSpanHighlight
                  (MultiSpanHighlight (some q) (some spans)
                    (some (spans.map fun _ => "highlight__answer".toList)))] } ]
            (Attention resp)
        else NoAnswer
      | _, _, _, _ => NoAnswer
    else if answer.answer_type = some "count".toList then
      match question, passage, answer.count with
      | some q, some p, some count =>
        if truthy q && truthy p then
          Element.section
            [ { label := "Answer".toList, children := [Node.number count] },
              { label := "Explanation".toList,
                children := [Node.text "The model decided this was a counting problem.".toList] },
              { label := "Passage".toList, children := [Node.text p] },
              { label := "Question".toList, children := [Node.text q] } ]
            (Attention resp)
        else NoAnswer
      | _, _, _ => NoAnswer
    else if answer.answer_type = some "arithmetic".toList then
      match question, passage, answer.numbers, answer.value with
      | some q, some p, some numbers, some value =>
        if truthy q && truthy p then
          Element.section
            [ { label := "Answer".toList, children := [Node.value value] },
              { label := "Explanation".toList,
                children :=
                  [ Node.text "The model used the arithmetic expression ".toList,
                    Node.arithmeticEquation (ArithmeticEquation (some numbers)),
                    Node.text " = ".toList,
                    Node.value value,
                    Node.text ".".toList ] },
              { label := "Passage".toList,
                children := [Node.multiSpanHighlight
                  (MultiSpanHighlight (some p) (some (numbers.map fun n => n.span))
                    (some (numbers.map fun n =>
                      "highlight__num_".toList ++ numberToString n.sign)))] },
              { label := "Question".toList, children := [Node.text q] } ]
            (Attention resp)
        else NoAnswer
      | _, _, _, _ => NoAnswer
    else
      match question, passage, resp.best_span_str with
      | some q, some p, some best_span_str =>
        if truthy q && truthy p && truthy best_span_str then
          let parts := legacySplit p best_span_str
          Element.section
            [ { label := "Answer".toList, children := [Node.text best_span_str] },
              { label := "Passage Context".toList,
                children :=
                  [ Node.span none parts.1,
                    Node.span (some "highlight__answer".toList) parts.2.1,
                    Node.span none parts.2.2 ] },
              { label := "Question".toList, children := [Node.text q] } ]
            (Attention resp)
        else NoAnswer
      | _, _, _ => NoAnswer
  | _, _ => NoAnswer

/-- The count branch in the words of the specification: the count value, the fixed
explanatory sentence, and the passage and the question shown unhighlighted. -/
def countView (count : Int) (p q : Str) (attention : Option HeatMapProps) : Element :=
  Element.section
    [ { label := "Answer".toList, children := [Node.number count] },
      { label := "Explanation".toList,
        children := [Node.text "The model decided this was a counting problem.".toList] },
      { label := "Passage".toList, children := [Node.text p] },
      { label := "Question".toList, children := [Node.text q] } ]
    attention

/-- The branch that `switch (answer_type)` selects. -/
inductive Branch where
  | passageSpan
  | questionSpan
  | count
  | arithmetic
  | legacy
  deriving DecidableEq, Repr

/-- The branch of a response, read off its `answer_type`; every other tag, and a missing
tag or answer, selects the legacy branch. -/
def branchOf (resp : ResponseData) : Branch :=
  let t := (resp.answer.getD emptyAnswer).answer_type
  if t = some "passage_span".toList then Branch.passageSpan
  else if t = some "question_span".toList then Branch.questionSpan
  else if t = some "count".toList then Branch.count
  else if t = some "arithmetic".toList then Branch.arithmetic
  else Branch.legacy

/-- A possibly undefined string that is missing or empty. -/
def missingOrEmpty (s : Option Str) : Prop := s = none ∨ s = some []

/-- The hypothesis of the missing-field claim, in the words of the specification: the
request or the response is missing, or the passage or the question is missing or empty, or
a field that the selected branch requires is missing. -/
def MissingRequired (requestData : Option RequestData) (responseData : Option ResponseData) :
    Prop :=
  match requestData, responseData with
  | some req, some resp =>
    missingOrEmpty req.passage ∨ missingOrEmpty req.question ∨
      (match branchOf resp with
        | Branch.passageSpan | Branch.questionSpan =>
          (resp.answer.getD emptyAnswer).spans = none ∨
            (resp.answer.getD emptyAnswer).value = none
        | Branch.count => (resp.answer.getD emptyAnswer).count = none
        | Branch.arithmetic =>
          (resp.answer.getD emptyAnswer).numbers = none ∨
            (resp.answer.getD emptyAnswer).value = none
        | Branch.legacy => resp.best_span_str = none)
  | _, _ => True

/-- The string `pat` occurs in `s` at index `k`. -/
def OccursAt (pat s : Str) (k : Nat) : Prop :=
  k ≤ s.length ∧ (s.drop k).take pat.length = pat

instance (pat s : Str) (k : Nat) : Decidable (OccursAt pat s k) :=
  inferInstanceAs (Decidable (k ≤ s.length ∧ (s.drop k).take pat.length = pat))

/-! ## Definitions: `apiUrl` -/

/-- An entry of `taskModels`. -/
structure TaskModel where
  name : Str
  desc : Str
  deriving DecidableEq, Repr

/-- The constant `taskModels`. -/
def taskModels : List TaskModel :=
  [ { name := "BiDAF (trained on SQuAD)".toList
      desc := "Reimplementation of BiDAF (Seo et al, 2017), or Bi-Directional Attention Flow,<br/>a widely used MC baseline that achieved state-of-the-art accuracies on<br/>the SQuAD dataset (Wikipedia sentences) in early 2017.".toList },
    { name := "NAQANet (trained on DROP)".toList
      desc := "An augmented version of QANet that adds rudimentary numerical reasoning ability,<br/>trained on DROP (Dua et al., 2019), as published in the original DROP paper.".toList } ]

/-- The own properties of the object literal `taskEndpoints`, in source order. -/
def taskEndpoints : List (Str × Str) :=
  [ ("BiDAF (trained on SQuAD)".toList, "reading-comprehension".toList),
    ("NAQANet (trained on DROP)".toList, "naqanet-reading-comprehension".toList) ]

/-- The property names that an object literal inherits from `Object.prototype`. -/
def objectPrototypeKeys : List Str :=
  [ "constructor".toList, "hasOwnProperty".toList, "isPrototypeOf".toList,
    "propertyIsEnumerable".toList, "toLocaleString".toList, "toString".toList,
    "valueOf".toList, "__proto__".toList, "__defineGetter__".toList,
    "__defineSetter__".toList, "__lookupGetter__".toList, "__lookupSetter__".toList ]

/-- The result of a property access `obj[key]` on an object literal with string values. -/
inductive Property where
  | own (value : Str)
  | inherited (key : Str)
  | undefined
  deriving DecidableEq, Repr

/-- The property access `obj[key]`: an own property first, then `Object.prototype`. -/
def getProperty (obj : List (Str × Str)) (key : Str) : Property :=
  match obj.lookup key with
  | some v => Property.own v
  | none => if key ∈ objectPrototypeKeys then Property.inherited key else Property.undefined

/-- The text of an inherited `Object.prototype` member inside a template literal, as V8
prints it: the prototype object for `__proto__`, a native function otherwise. -/
def builtinText (key : Str) : Str :=
  if key = "__proto__".toList then "[object Object]".toList
  else
    "function ".toList ++ (if key = "constructor".toList then "Object".toList else key) ++
      "() \x7b [native code] \x7d".toList

/-- The text of `${endpoint}` in the template literal of `apiUrl`. -/
def propertyText : Property → Str
  | Property.own v => v
  | Property.inherited k => builtinText k
  | Property.undefined => "undefined".toList

/-- The property key that a possibly undefined string is converted to. -/
def propertyKey : Option Str → Str
  | none => "undefined".toList
  | some s => s

/-- The expression `model || (taskModels[0] && taskModels[0].name)`. -/
def selectedModel (model : Option Str) : Option Str :=
  if truthyStr model then model else taskModels.head?.map TaskModel.name

/-- The function `apiUrl`.  The constant `API_ROOT` is imported from `api-config`, which is
not part of this file; it is a parameter here. -/
def apiUrl (API_ROOT : Str) (model : Option Str) : Str :=
  let endpoint := getProperty taskEndpoints (propertyKey (selectedModel model))
  API_ROOT ++ "/predict/".toList ++ propertyText endpoint

/-- The loop state of `MultiSpanHighlight` reached after the spans `pre` have been
processed, from the initial `curIndex = 0`, `spanList = []`. -/
def loopState (original : Str) (highlightStyles : List Str) (pre : List Span) : HState :=
  forEachSpan original highlightStyles pre 0 { curIndex := 0, spanList := [] }

/-- The segment that the "add highlighted span" step pushes for the span at index `sIndex`
when the cursor is at `cur`: the text from the cursor to `stop`. -/
def styledSegment (original : Str) (highlightStyles : List Str) (cur stop : Int)
    (sIndex : Nat) : Segment :=
  { key := (cur, stop), className := highlightStyles[sIndex]?,
    text := jsSlice original cur (some stop) }

/-- The segments cover consecutive index ranges from `a` to `b`: every segment has a key
`(lo, hi)` with `lo < hi`, shows the slice `[lo, hi)` of the string, and starts where the
one before it ended (the first one at `a`, the last one ending at `b`). -/
def RangeChain (T : Str) : Int → List Segment → Int → Prop
  | a, [], b => a = b
  | a, g :: rest, b =>
    g.key.1 = a ∧ g.key.1 < g.key.2 ∧ g.text = jsSlice T g.key.1 (some g.key.2) ∧
      RangeChain T g.key.2 rest b

/-! ## Slicing lemmas -/

theorem relIndex_of_nonneg (len : Nat) (i : Int) (h : 0 ≤ i) :
    relIndex len i = min i.toNat len := by
  unfold relIndex
  rw [if_neg (by omega)]

theorem take_drop_min (T : Str) (a b : Nat) :
    (T.drop (min a T.length)).take (min b T.length - min a T.length)
      = (T.drop a).take (b - a) := by
  by_cases ha : a ≤ T.length
  · rw [Nat.min_eq_left ha]
    by_cases hb : b ≤ T.length
    · rw [Nat.min_eq_left hb]
    · rw [Nat.min_eq_right (by omega)]
      rw [List.take_of_length_le (by simp), List.take_of_length_le (by simp; omega)]
  · rw [List.drop_of_length_le (by omega), List.drop_of_length_le (by omega)]
    simp

theorem jsSlice_of_nonneg (T : Str) (a b : Int) (ha : 0 ≤ a) (hb : 0 ≤ b) :
    jsSlice T a (some b) = (T.drop a.toNat).take (b.toNat - a.toNat) := by
  simp only [jsSlice, relIndex_of_nonneg _ _ ha, relIndex_of_nonneg _ _ hb]
  exact take_drop_min T a.toNat b.toNat

theorem jsSlice_none_of_nonneg (T : Str) (a : Int) (ha : 0 ≤ a) :
    jsSlice T a none = T.drop a.toNat := by
  simp only [jsSlice, relIndex_of_nonneg _ _ ha]
  by_cases h : a.toNat ≤ T.length
  · rw [Nat.min_eq_left h, List.take_of_length_le (by simp)]
  · rw [List.drop_of_length_le (by omega), List.drop_of_length_le (by omega)]
    simp

theorem take_append_take_drop (T : Str) (a b : Nat) (h : a ≤ b) :
    T.take a ++ (T.drop a).take (b - a) = T.take b := by
  have hb : b = a + (b - a) := by omega
  conv_rhs => rw [hb, List.take_add]

theorem segmentsText_append (xs ys : List Segment) :
    segmentsText (xs ++ ys) = segmentsText xs ++ segmentsText ys := by
  simp [segmentsText]

/-! ## The cursor invariant of `MultiSpanHighlight` -/

theorem cursorInv_push (T : Str) (st : HState) (e : Int) (c : Option Str)
    (h : CursorInv T st) (he : e > st.curIndex) :
    CursorInv T { curIndex := e, spanList := st.spanList ++
      [{ key := (st.curIndex, e), className := c, text := jsSlice T st.curIndex (some e) }] } := by
  obtain ⟨h0, ht⟩ := h
  refine ⟨by simp only; omega, ?_⟩
  simp only [segmentsText_append, ht]
  rw [jsSlice_of_nonneg T _ _ h0 (by omega)]
  simp only [segmentsText, List.map_cons, List.map_nil, List.flatten_cons, List.flatten_nil,
    List.append_nil]
  exact take_append_take_drop T _ _ (by omega)

theorem cursorInv_step (T : Str) (styles : List Str) (st : HState) (s : Span) (i : Nat)
    (h : CursorInv T st) : CursorInv T (highlightStep T styles st s i) := by
  unfold highlightStep
  by_cases h1 : s.1 > st.curIndex
  · simp only [h1, if_true]
    have h' := cursorInv_push T st s.1 none h h1
    split
    · next h2 => exact cursorInv_push T _ s.2 _ h' h2
    · exact h'
  · simp only [h1, if_false]
    split
    · next h2 => exact cursorInv_push T _ s.2 _ h h2
    · exact h

theorem cursorInv_forEach (T : Str) (styles : List Str) (S : List Span) :
    ∀ (i : Nat) (st : HState), CursorInv T st → CursorInv T (forEachSpan T styles S i st) := by
  induction S with
  | nil => intro i st h; exact h
  | cons s rest ih =>
    intro i st h
    exact ih (i + 1) _ (cursorInv_step T styles st s i h)

theorem segmentsText_pushLast (T : Str) (st : HState) (h : CursorInv T st) :
    segmentsText (pushLast T st) = T := by
  obtain ⟨h0, ht⟩ := h
  unfold pushLast
  split
  · simp only [segmentsText_append, ht]
    rw [jsSlice_none_of_nonneg T _ h0]
    simp [segmentsText]
  · next hlt =>
    rw [ht, List.take_of_length_le (by omega)]

/-- Reconstruction for every span list: whenever `MultiSpanHighlight` returns a segment
list, the segment texts spell the original string. -/
theorem segmentsText_highlight (T : Str) (S : List Span) (styles : List Str) :
    segmentsText (pushLast T (forEachSpan T styles S 0 { curIndex := 0, spanList := [] })) = T :=
  segmentsText_pushLast T _
    (cursorInv_forEach T styles S 0 _ ⟨le_refl _, by simp [segmentsText]⟩)

theorem MultiSpanHighlight_of_ne_nil (T : Str) (S : List Span) (styles : List Str)
    (hT : T ≠ []) :
    MultiSpanHighlight (some T) (some S) (some styles)
      = some (pushLast T (forEachSpan T styles S 0 { curIndex := 0, spanList := [] })) := by
  cases T with
  | nil => exact absurd rfl hT
  | cons c cs => rfl

/-! ## Styled segments -/

theorem styledSegments_append (xs ys : List Segment) :
    styledSegments (xs ++ ys) = styledSegments xs ++ styledSegments ys := by
  simp [styledSegments]

/-- One loop step on a non-empty span that starts at or after the cursor: the step
appends the span's styled segment, after unstyled segments only, and leaves the cursor at
the span's end. -/
theorem highlightStep_proper (T : Str) (styles : List Str) (st : HState) (s : Span) (i : Nat)
    (h1 : st.curIndex ≤ s.1) (h2 : s.1 < s.2) :
    (highlightStep T styles st s i).curIndex = s.2 ∧
    styledSegments (highlightStep T styles st s i).spanList
      = styledSegments st.spanList ++
          styledSegments [{ key := (s.1, s.2), className := styles[i]?,
                            text := jsSlice T s.1 (some s.2) }] := by
  obtain ⟨cur, l⟩ := st
  simp only at h1
  unfold highlightStep
  by_cases hgt : s.1 > cur
  · simp only [hgt, if_true, gt_iff_lt, h2]
    refine ⟨trivial, ?_⟩
    simp [styledSegments_append, styledSegments]
  · have heq : cur = s.1 := by omega
    subst heq
    simp [h2, styledSegments_append]

theorem styledSegments_forEach (T : Str) (styles : List Str) (S : List Span) :
    ∀ (i : Nat) (st : HState),
      AscendingFrom st.curIndex S →
      (∀ s ∈ S, s.1 < s.2) → i + S.length ≤ styles.length →
      styledSegments (forEachSpan T styles S i st).spanList
        = styledSegments st.spanList ++
            List.zipWith (fun (s : Span) (c : Str) => (jsSlice T s.1 (some s.2), c)) S
              (styles.drop i) := by
  induction S with
  | nil => intro i st _ _ _; simp [forEachSpan]
  | cons s rest ih =>
    intro i st hch hpos hlen
    have hs : s.1 < s.2 := hpos s (List.mem_cons_self _ _)
    simp only [List.length_cons] at hlen
    have hi : i < styles.length := by omega
    obtain ⟨hc, hseg⟩ := highlightStep_proper T styles st s i hch.1 hs
    have := ih (i + 1) (highlightStep T styles st s i) (by rw [hc]; exact hch.2)
      (fun x hx => hpos x (List.mem_cons_of_mem _ hx)) (by omega)
    simp only [forEachSpan]
    rw [this, hseg, List.getElem?_eq_getElem hi]
    conv_rhs => rw [List.drop_eq_getElem_cons hi, List.zipWith_cons_cons]
    simp only [styledSegments, List.filterMap_cons, List.filterMap_nil, Option.map_some',
      List.append_assoc, List.singleton_append]

theorem styledSegments_pushLast (T : Str) (st : HState) :
    styledSegments (pushLast T st) = styledSegments st.spanList := by
  unfold pushLast
  split
  · simp [styledSegments_append, styledSegments]
  · rfl

/-! ## Claims about `MultiSpanHighlight` -/

/-- C1. Reconstruction: for a non-empty string `T` and an ascending, non-overlapping list
of spans over `T` with one style per span, `MultiSpanHighlight` returns a segment list and
the texts of its segments, concatenated in order, are exactly `T`. -/
theorem multiSpanHighlight_reconstructs (T : Str) (S : List Span) (styles : List Str)
    (hT : T ≠ []) (_hS : SpansOver T S) (_hA : Ascending S)
    (_hlen : styles.length = S.length) :
    ∃ segs, MultiSpanHighlight (some T) (some S) (some styles) = some segs ∧
      segmentsText segs = T :=
  ⟨_, MultiSpanHighlight_of_ne_nil T S styles hT, segmentsText_highlight T S styles⟩

theorem multiSpanHighlight_reconstructs_witness :
    ("tea for two".toList ≠ [] ∧ SpansOver "tea for two".toList [(0, 3), (4, 7), (7, 7)] ∧
      Ascending [(0, 3), (4, 7), (7, 7)]) ∧
    ∃ segs, MultiSpanHighlight (some "tea for two".toList) (some [(0, 3), (4, 7), (7, 7)])
        (some ["x".toList, "y".toList, "z".toList]) = some segs ∧
      segmentsText segs = "tea for two".toList :=
  ⟨⟨by decide, by decide, by decide⟩,
   multiSpanHighlight_reconstructs "tea for two".toList [(0, 3), (4, 7), (7, 7)]
     ["x".toList, "y".toList, "z".toList] (by decide) (by decide) (by decide) (by decide)⟩

/-- C2. Style tagging: for every string `T`, every ascending non-overlapping span list
with `0 ≤ start < end ≤ length T` and a style list of the same length, the styled segments
that `MultiSpanHighlight` emits are, in order, exactly the pairs
`(T[start_i, end_i), style_i)`; every other emitted segment is unstyled.  The result is a
segment list whenever `T` is not empty. -/
theorem multiSpanHighlight_styles (T : Str) (S : List Span) (styles : List Str)
    (hS : ProperSpansOver T S) (hA : Ascending S) (hlen : styles.length = S.length) :
    (T ≠ [] → (MultiSpanHighlight (some T) (some S) (some styles)).isSome) ∧
    styledSegments (emitted (MultiSpanHighlight (some T) (some S) (some styles)))
      = List.zipWith (fun (s : Span) (c : Str) => (jsSlice T s.1 (some s.2), c)) S styles := by
  cases T with
  | nil =>
    cases S with
    | nil => exact ⟨fun h => absurd rfl h, by simp [MultiSpanHighlight, truthy, emitted, styledSegments]⟩
    | cons s rest =>
      have := hS s (List.mem_cons_self _ _)
      simp only [List.length_nil, Nat.cast_zero] at this
      omega
  | cons c cs =>
    have hne : (c :: cs) ≠ [] := List.cons_ne_nil _ _
    rw [MultiSpanHighlight_of_ne_nil _ S styles hne]
    refine ⟨fun _ => rfl, ?_⟩
    simp only [emitted, Option.getD_some]
    rw [styledSegments_pushLast]
    have hch : AscendingFrom 0 S := by
      cases S with
      | nil => exact trivial
      | cons s rest => exact ⟨(hS s (List.mem_cons_self _ _)).1, hA⟩
    have := styledSegments_forEach (c :: cs) styles S 0 { curIndex := 0, spanList := [] }
      hch (fun s hs => (hS s hs).2.1) (by omega)
    rw [this]
    simp [styledSegments]

theorem multiSpanHighlight_styles_witness :
    (ProperSpansOver "tea for two".toList [(0, 3), (4, 7)] ∧ Ascending [(0, 3), (4, 7)]) ∧
    styledSegments (emitted (MultiSpanHighlight (some "tea for two".toList)
        (some [(0, 3), (4, 7)]) (some ["x".toList, "y".toList])))
      = [("tea".toList, "x".toList), ("for".toList, "y".toList)] :=
  ⟨⟨by decide, by decide⟩,
   (multiSpanHighlight_styles "tea for two".toList [(0, 3), (4, 7)]
     ["x".toList, "y".toList] (by decide) (by decide) (by decide)).2⟩

/-- C3 as stated fails on the empty string: with an empty span list the result for `""` is
`null`, not a single unstyled segment. -/
theorem multiSpanHighlight_empty_spans_counterexample :
    ¬ ∃ g : Segment, MultiSpanHighlight (some []) (some []) (some []) = some [g] ∧
      g.className = none ∧ g.text = [] := by
  rintro ⟨g, h, _⟩
  simp [MultiSpanHighlight, truthy] at h

/-- C3 (amended). For every non-empty input string, `MultiSpanHighlight` called with an
empty span list and an empty style list produces exactly one segment, which is unstyled
and whose text is the whole input string. -/
theorem multiSpanHighlight_empty_spans (T : Str) (hT : T ≠ []) :
    MultiSpanHighlight (some T) (some []) (some [])
      = some [{ key := (0, (T.length : Int)), className := none, text := T }] := by
  rw [MultiSpanHighlight_of_ne_nil T [] [] hT]
  have hlen : (0 : Int) < (T.length : Int) := by
    cases T with
    | nil => exact absurd rfl hT
    | cons c cs => simp only [List.length_cons]; omega
  simp [forEachSpan, pushLast, hlen, jsSlice, relIndex]

theorem multiSpanHighlight_empty_spans_witness :
    "tea".toList ≠ [] ∧
    MultiSpanHighlight (some "tea".toList) (some []) (some [])
      = some [{ key := (0, 3), className := none, text := "tea".toList }] :=
  ⟨by decide, multiSpanHighlight_empty_spans "tea".toList (by decide)⟩

/-! ## Claims about `ArithmeticEquation` -/

theorem joinLoop_succ (sep : Str) (xs : List Str) :
    ∀ (k : Nat) (r : Str),
      joinLoop sep xs (k + 1) r = r ++ (xs.map fun e => sep ++ e).flatten := by
  induction xs with
  | nil => intro k r; simp [joinLoop]
  | cons e es ih =>
    intro k r
    simp only [joinLoop, ih, Nat.succ_pos, if_true, gt_iff_lt, List.map_cons,
      List.flatten_cons, List.append_assoc]

theorem intercalate_cons (sep : Str) (xs : List Str) :
    ∀ x : Str, List.intercalate sep (x :: xs) = x ++ (xs.map fun e => sep ++ e).flatten := by
  induction xs with
  | nil => intro x; simp [List.intercalate]
  | cons y ys ih =>
    intro x
    have h := ih y
    simp only [List.intercalate] at h ⊢
    simp only [List.intersperse, List.flatten_cons, List.map_cons, List.append_assoc]
    rw [h]

theorem jsJoin_eq_intercalate (sep : Str) (xs : List Str) :
    jsJoin sep xs = List.intercalate sep xs := by
  cases xs with
  | nil => simp [jsJoin, joinLoop, List.intercalate]
  | cons x rest =>
    rw [intercalate_cons]
    simp only [jsJoin, joinLoop, gt_iff_lt, Nat.lt_irrefl, if_false, List.nil_append]
    exact joinLoop_succ sep rest 0 x

theorem stripLoop_eq_dropWhile (s : Str) :
    stripLoop s = s.dropWhile fun c => c == '+' || c == ' ' := by
  induction s with
  | nil => rfl
  | cons c cs ih =>
    by_cases h : c = '+' ∨ c = ' '
    · simp only [stripLoop, h, if_true, ih]
      rw [List.dropWhile_cons_of_pos (by simpa using h)]
    · simp only [stripLoop, h, if_false]
      rw [List.dropWhile_cons_of_neg (by simpa using h)]

theorem signedToken_eq_specToken (n : SignedNumber) : signedToken n = specToken n := by
  unfold signedToken specToken
  split <;> rfl

/-- C4. `ArithmeticEquation` equals its reference definition: the rendered text is
obtained by dropping the entries of sign 0, rendering the others as `+ <value>` or
`- <value>`, joining with single spaces and removing every leading `+` and space.  On
`[{value:5,sign:1},{value:3,sign:-1},{value:0,sign:0}]` the text is `5 - 3`. -/
theorem arithmeticEquation_eq_spec :
    (∀ numbers : List SignedNumber,
      ArithmeticEquation (some numbers) = some (arithmeticEquationSpec numbers)) ∧
    ArithmeticEquation (some [⟨5, 1, (0, 1)⟩, ⟨3, -1, (5, 6)⟩, ⟨0, 0, (8, 9)⟩])
      = some "5 - 3".toList := by
  refine ⟨fun numbers => ?_, by decide⟩
  simp only [ArithmeticEquation, arithmeticEquationSpec, jsJoin_eq_intercalate,
    stripLoop_eq_dropWhile]
  have hf : (numbers.filter fun n => decide (n.sign ≠ 0))
      = numbers.filter fun n => !(n.sign == 0) := by
    congr 1
    funext n
    by_cases h : n.sign = 0 <;> simp [h]
  have hm : signedToken = specToken := funext signedToken_eq_specToken
  rw [hf, hm]
  rfl

/-- C5. When every entry has sign 0 (the empty list included), `ArithmeticEquation`
renders the empty string. -/
theorem arithmeticEquation_all_zero (numbers : List SignedNumber)
    (h : ∀ n ∈ numbers, n.sign = 0) : ArithmeticEquation (some numbers) = some [] := by
  have hf : (numbers.filter fun n => decide (n.sign ≠ 0)) = [] := by
    rw [List.filter_eq_nil_iff]
    intro n hn
    simp [h n hn]
  simp only [ArithmeticEquation, hf, List.map_nil, jsJoin, joinLoop, stripLoop]

theorem arithmeticEquation_all_zero_witness :
    (∀ n ∈ [(⟨4, 0, (0, 1)⟩ : SignedNumber), ⟨17, 0, (3, 5)⟩], n.sign = 0) ∧
    ArithmeticEquation (some [⟨4, 0, (0, 1)⟩, ⟨17, 0, (3, 5)⟩]) = some [] :=
  ⟨by decide, arithmeticEquation_all_zero [⟨4, 0, (0, 1)⟩, ⟨17, 0, (3, 5)⟩] (by decide)⟩

/-! ## Claims about `AnswerByType` -/

theorem truthy_eq_true_iff (s : Str) : truthy s = true ↔ s ≠ [] := by
  cases s <;> simp [truthy]

theorem count_tag_ne :
    ("count".toList ≠ "passage_span".toList) ∧ ("count".toList ≠ "question_span".toList) := by
  decide

/-- The count branch of `AnswerByType`, for a truthy passage and question. -/
theorem AnswerByType_count (req : RequestData) (resp : ResponseData) (ans : Answer)
    (p q : Str) (hp : req.passage = some p) (hpne : p ≠ []) (hq : req.question = some q)
    (hqne : q ≠ []) (hans : resp.answer = some ans)
    (htype : ans.answer_type = some "count".toList) :
    AnswerByType (some req) (some resp) =
      match ans.count with
      | some c => countView c p q (Attention resp)
      | none => NoAnswer := by
  have hp' : truthy p = true := (truthy_eq_true_iff p).2 hpne
  have hq' : truthy q = true := (truthy_eq_true_iff q).2 hqne
  simp only [AnswerByType, hans, Option.getD_some, htype, hp, hq, Option.some.injEq,
    count_tag_ne.1, count_tag_ne.2, if_false, if_true]
  cases hc : ans.count with
  | none => rfl
  | some c => simp [hp', hq', countView]

/-- C6. For a request and response with non-empty passage and question and answer type
`count`: `AnswerByType` produces the count branch (the count value, the fixed sentence
"The model decided this was a counting problem.", passage and question unhighlighted) if
and only if `answer.count` is defined, and the "No answer returned." placeholder when it is
undefined. -/
theorem answerByType_count_iff (req : RequestData) (resp : ResponseData) (ans : Answer)
    (p q : Str) (hp : req.passage = some p) (hpne : p ≠ []) (hq : req.question = some q)
    (hqne : q ≠ []) (hans : resp.answer = some ans)
    (htype : ans.answer_type = some "count".toList) :
    ((∃ c, AnswerByType (some req) (some resp) = countView c p q (Attention resp)) ↔
        ans.count ≠ none) ∧
    (∀ c, ans.count = some c →
        AnswerByType (some req) (some resp) = countView c p q (Attention resp)) ∧
    (ans.count = none → AnswerByType (some req) (some resp) = NoAnswer) := by
  have h := AnswerByType_count req resp ans p q hp hpne hq hqne hans htype
  refine ⟨⟨?_, ?_⟩, ?_, ?_⟩
  · rintro ⟨c, hc⟩ hnone
    rw [h, hnone] at hc
    simp [NoAnswer, countView] at hc
  · intro hne
    cases hc : ans.count with
    | none => exact absurd hc hne
    | some c => exact ⟨c, by rw [h, hc]⟩
  · intro c hc
    rw [h, hc]
  · intro hc
    rw [h, hc]

theorem answerByType_count_iff_witness :
    AnswerByType (some ⟨some "Two cats and a dog.".toList, some "How many pets?".toList⟩)
        (some ⟨some ⟨some "count".toList, none, none, some 3, none⟩, none, none, none, none⟩)
      = Element.section
          [ { label := "Answer".toList, children := [Node.number 3] },
            { label := "Explanation".toList,
              children := [Node.text "The model decided this was a counting problem.".toList] },
            { label := "Passage".toList, children := [Node.text "Two cats and a dog.".toList] },
            { label := "Question".toList, children := [Node.text "How many pets?".toList] } ]
          none :=
  (answerByType_count_iff ⟨some "Two cats and a dog.".toList, some "How many pets?".toList⟩
    ⟨some ⟨some "count".toList, none, none, some 3, none⟩, none, none, none, none⟩
    ⟨some "count".toList, none, none, some 3, none⟩
    "Two cats and a dog.".toList "How many pets?".toList
    rfl (by decide) rfl (by decide) rfl rfl).2.1 3 rfl

theorem AnswerByType_of_passage_falsy (req : RequestData) (resp : ResponseData)
    (h : missingOrEmpty req.passage) : AnswerByType (some req) (some resp) = NoAnswer := by
  unfold AnswerByType
  rcases h with h | h <;> simp only [h] <;> split_ifs <;>
    first
      | rfl
      | (split <;> first | rfl | simp_all [truthy])

theorem AnswerByType_of_question_falsy (req : RequestData) (resp : ResponseData)
    (h : missingOrEmpty req.question) : AnswerByType (some req) (some resp) = NoAnswer := by
  unfold AnswerByType
  rcases h with h | h <;> simp only [h] <;> split_ifs <;>
    first
      | rfl
      | (split <;> first | rfl | simp_all [truthy])

/-- C7. Missing required field gives the placeholder: if the request or the response is
missing, or the passage or the question is missing or empty, or a field that the selected
branch requires is missing (spans or value for the span branches, count for count, numbers
or value for arithmetic, best_span_str for the legacy branch), then `AnswerByType` returns
exactly the "No answer returned." placeholder. -/
theorem answerByType_missing_field (requestData : Option RequestData)
    (responseData : Option ResponseData) (h : MissingRequired requestData responseData) :
    AnswerByType requestData responseData = NoAnswer := by
  cases requestData with
  | none => rfl
  | some req =>
    cases responseData with
    | none => rfl
    | some resp =>
      simp only [MissingRequired] at h
      rcases h with h | h | h
      · exact AnswerByType_of_passage_falsy req resp h
      · exact AnswerByType_of_question_falsy req resp h
      · unfold branchOf at h
        unfold AnswerByType
        simp only at h ⊢
        by_cases h1 : (resp.answer.getD emptyAnswer).answer_type = some "passage_span".toList
        · rw [if_pos h1] at h ⊢
          rcases h with h | h <;> simp only [h] <;> split <;> first | rfl | simp_all
        · rw [if_neg h1] at h ⊢
          by_cases h2 : (resp.answer.getD emptyAnswer).answer_type = some "question_span".toList
          · rw [if_pos h2] at h ⊢
            rcases h with h | h <;> simp only [h] <;> split <;> first | rfl | simp_all
          · rw [if_neg h2] at h ⊢
            by_cases h3 : (resp.answer.getD emptyAnswer).answer_type = some "count".toList
            · rw [if_pos h3] at h ⊢
              simp only [h]
              split <;> first | rfl | simp_all
            · rw [if_neg h3] at h ⊢
              by_cases h4 : (resp.answer.getD emptyAnswer).answer_type = some "arithmetic".toList
              · rw [if_pos h4] at h ⊢
                rcases h with h | h <;> simp only [h] <;> split <;> first | rfl | simp_all
              · rw [if_neg h4] at h ⊢
                simp only [h]
                split <;> first | rfl | simp_all

theorem answerByType_missing_field_witness :
    MissingRequired (some ⟨some "Two cats and a dog.".toList, some "How many pets?".toList⟩)
        (some ⟨some ⟨some "count".toList, none, none, none, none⟩, none, none, none, none⟩) ∧
    AnswerByType (some ⟨some "Two cats and a dog.".toList, some "How many pets?".toList⟩)
        (some ⟨some ⟨some "count".toList, none, none, none, none⟩, none, none, none, none⟩)
      = Element.outputField
          { label := "Answer".toList, children := [Node.text "No answer returned.".toList] } :=
  ⟨by simp [MissingRequired, branchOf, missingOrEmpty],
   answerByType_missing_field _ _ (by simp [MissingRequired, branchOf, missingOrEmpty])⟩

/-! ## The legacy branch -/

theorem matchesHere_iff (s pat : Str) : matchesHere s pat = true ↔ s.take pat.length = pat := by
  simp [matchesHere]

theorem indexOfFrom_spec (pat : Str) :
    ∀ (s : Str) (k : Nat),
      (∃ j, OccursAt pat s j ∧ (∀ i, i < j → ¬ OccursAt pat s i) ∧
          indexOfFrom pat s k = ((k + j : Nat) : Int)) ∨
      ((∀ j, ¬ OccursAt pat s j) ∧ indexOfFrom pat s k = -1) := by
  intro s
  induction s with
  | nil =>
    intro k
    by_cases h : matchesHere [] pat = true
    · left
      refine ⟨0, ⟨le_refl _, by simpa [matchesHere] using h⟩, fun i hi => absurd hi (Nat.not_lt_zero i), ?_⟩
      simp [indexOfFrom, h]
    · right
      refine ⟨?_, by simp [indexOfFrom, h]⟩
      rintro j ⟨_, hj⟩
      apply h
      rw [matchesHere_iff]
      simpa using hj
  | cons c cs ih =>
    intro k
    by_cases h : matchesHere (c :: cs) pat = true
    · left
      refine ⟨0, ⟨Nat.zero_le _, by simpa [matchesHere] using h⟩,
        fun i hi => absurd hi (Nat.not_lt_zero i), ?_⟩
      simp [indexOfFrom, h]
    · have hstep : indexOfFrom pat (c :: cs) k = indexOfFrom pat cs (k + 1) := by
        simp [indexOfFrom, h]
      have h0 : ¬ OccursAt pat (c :: cs) 0 := by
        rintro ⟨_, h0⟩
        exact h ((matchesHere_iff _ _).2 (by simpa using h0))
      have hsucc : ∀ i, OccursAt pat (c :: cs) (i + 1) ↔ OccursAt pat cs i := by
        intro i
        simp [OccursAt]
      rcases ih (k + 1) with ⟨j, hj, hmin, hres⟩ | ⟨hno, hres⟩
      · left
        refine ⟨j + 1, (hsucc j).2 hj, ?_, ?_⟩
        · intro i hi
          cases i with
          | zero => exact h0
          | succ i => exact fun hc => hmin i (by omega) ((hsucc i).1 hc)
        · rw [hstep, hres]
          push_cast
          ring
      · right
        refine ⟨?_, by rw [hstep, hres]⟩
        intro j
        cases j with
        | zero => exact h0
        | succ j => exact fun hc => hno j ((hsucc j).1 hc)

/-- When `pat` occurs in `s`, `indexOf` is the smallest index at which it occurs. -/
theorem indexOf_of_occurs (s pat : Str) (h : ∃ k, OccursAt pat s k) :
    ∃ j : Nat, indexOf s pat = (j : Int) ∧ OccursAt pat s j ∧ ∀ i, i < j → ¬ OccursAt pat s i := by
  rcases indexOfFrom_spec pat s 0 with ⟨j, hj, hmin, hres⟩ | ⟨hno, _⟩
  · exact ⟨j, by simpa [indexOf] using hres, hj, hmin⟩
  · obtain ⟨k, hk⟩ := h
    exact absurd hk (hno k)

/-- When `pat` does not occur in `s`, `indexOf` is `-1`. -/
theorem indexOf_of_not_occurs (s pat : Str) (h : ¬ ∃ k, OccursAt pat s k) :
    indexOf s pat = -1 := by
  rcases indexOfFrom_spec pat s 0 with ⟨j, hj, _, _⟩ | ⟨_, hres⟩
  · exact absurd ⟨j, hj⟩ h
  · exact hres

theorem OccursAt.add_le {pat s : Str} {k : Nat} (h : OccursAt pat s k) :
    k + pat.length ≤ s.length := by
  obtain ⟨hk, ht⟩ := h
  have := congrArg List.length ht
  simp only [List.length_take, List.length_drop] at this
  omega

/-- The legacy split at the first occurrence `j`: the head is the first `j` code units and
the tail is what follows the match. -/
theorem legacySplit_of_indexOf (passage best : Str) (j : Nat)
    (h : indexOf passage best = (j : Int)) :
    legacySplit passage best = (passage.take j, best, passage.drop (j + best.length)) := by
  simp only [legacySplit, h]
  rw [jsSlice_of_nonneg _ _ _ (le_refl _) (by omega),
    jsSlice_none_of_nonneg _ _ (by omega)]
  simp only [Int.toNat_zero, List.drop_zero, Nat.sub_zero, Int.toNat_ofNat]
  have : ((j : Int) + (best.length : Int)).toNat = j + best.length := by omega
  rw [this]

theorem take_append_match_append_drop (passage best : Str) (j : Nat)
    (h : OccursAt best passage j) :
    passage.take j ++ best ++ passage.drop (j + best.length) = passage := by
  obtain ⟨_, ht⟩ := h
  have h1 : passage.drop (j + best.length) = (passage.drop j).drop best.length := by
    rw [List.drop_drop, Nat.add_comm]
  have h2 : best ++ (passage.drop j).drop best.length = passage.drop j := by
    generalize best.length = n at ht ⊢
    subst ht
    exact List.take_append_drop _ _
  rw [h1, List.append_assoc, h2, List.take_append_drop]

theorem branchOf_legacy_iff (resp : ResponseData) :
    branchOf resp = Branch.legacy ↔
      (resp.answer.getD emptyAnswer).answer_type ≠ some "passage_span".toList ∧
      (resp.answer.getD emptyAnswer).answer_type ≠ some "question_span".toList ∧
      (resp.answer.getD emptyAnswer).answer_type ≠ some "count".toList ∧
      (resp.answer.getD emptyAnswer).answer_type ≠ some "arithmetic".toList := by
  unfold branchOf
  simp only
  by_cases h1 : (resp.answer.getD emptyAnswer).answer_type = some "passage_span".toList
  · rw [if_pos h1]
    exact ⟨fun h => Branch.noConfusion h, fun h => absurd h1 h.1⟩
  · rw [if_neg h1]
    by_cases h2 : (resp.answer.getD emptyAnswer).answer_type = some "question_span".toList
    · rw [if_pos h2]
      exact ⟨fun h => Branch.noConfusion h, fun h => absurd h2 h.2.1⟩
    · rw [if_neg h2]
      by_cases h3 : (resp.answer.getD emptyAnswer).answer_type = some "count".toList
      · rw [if_pos h3]
        exact ⟨fun h => Branch.noConfusion h, fun h => absurd h3 h.2.2.1⟩
      · rw [if_neg h3]
        by_cases h4 : (resp.answer.getD emptyAnswer).answer_type = some "arithmetic".toList
        · rw [if_pos h4]
          exact ⟨fun h => Branch.noConfusion h, fun h => absurd h4 h.2.2.2⟩
        · rw [if_neg h4]
          exact ⟨fun _ => ⟨h1, h2, h3, h4⟩, fun _ => rfl⟩

/-- The legacy branch of `AnswerByType`, for a truthy question, passage and answer string. -/
theorem AnswerByType_legacy (req : RequestData) (resp : ResponseData) (p q best : Str)
    (hp : req.passage = some p) (hpne : p ≠ []) (hq : req.question = some q) (hqne : q ≠ [])
    (hb : resp.best_span_str = some best) (hbne : best ≠ [])
    (hbr : branchOf resp = Branch.legacy) :
    AnswerByType (some req) (some resp) =
      Element.section
        [ { label := "Answer".toList, children := [Node.text best] },
          { label := "Passage Context".toList,
            children :=
              [ Node.span none (legacySplit p best).1,
                Node.span (some "highlight__answer".toList) best,
                Node.span none (legacySplit p best).2.2 ] },
          { label := "Question".toList, children := [Node.text q] } ]
        (Attention resp) := by
  obtain ⟨h1, h2, h3, h4⟩ := (branchOf_legacy_iff resp).1 hbr
  have hp' : truthy p = true := (truthy_eq_true_iff p).2 hpne
  have hq' : truthy q = true := (truthy_eq_true_iff q).2 hqne
  have hb' : truthy best = true := (truthy_eq_true_iff best).2 hbne
  unfold AnswerByType
  simp only
  rw [if_neg h1, if_neg h2, if_neg h3, if_neg h4]
  simp [hp, hq, hb, hp', hq', hb', legacySplit]

/-- C8. Legacy round trip: for a non-empty passage and a non-empty `best_span_str` that
occurs in it, the legacy branch renders the three spans head, `best_span_str`, tail, and
they concatenate to exactly the passage. -/
theorem legacy_round_trip (passage best : Str) (hp : passage ≠ []) (hb : best ≠ [])
    (hocc : ∃ k, OccursAt best passage k) :
    (∀ (q : Str) (req : RequestData) (resp : ResponseData),
      req.passage = some passage → req.question = some q → q ≠ [] →
      resp.best_span_str = some best → branchOf resp = Branch.legacy →
      AnswerByType (some req) (some resp) =
        Element.section
          [ { label := "Answer".toList, children := [Node.text best] },
            { label := "Passage Context".toList,
              children :=
                [ Node.span none (legacySplit passage best).1,
                  Node.span (some "highlight__answer".toList) best,
                  Node.span none (legacySplit passage best).2.2 ] },
            { label := "Question".toList, children := [Node.text q] } ]
          (Attention resp)) ∧
    (legacySplit passage best).1 ++ best ++ (legacySplit passage best).2.2 = passage := by
  constructor
  · intro q req resp hpass hq hqne hbest hbr
    exact AnswerByType_legacy req resp passage q best hpass hp hq hqne hbest hb hbr
  · obtain ⟨j, hidx, hj, _⟩ := indexOf_of_occurs passage best hocc
    rw [legacySplit_of_indexOf passage best j hidx]
    exact take_append_match_append_drop passage best j hj

theorem legacy_round_trip_witness :
    ("the cat sat".toList ≠ [] ∧ "cat".toList ≠ [] ∧ OccursAt "cat".toList "the cat sat".toList 4) ∧
    (legacySplit "the cat sat".toList "cat".toList).1 ++ "cat".toList ++
      (legacySplit "the cat sat".toList "cat".toList).2.2 = "the cat sat".toList :=
  ⟨⟨by decide, by decide, by decide⟩,
   (legacy_round_trip "the cat sat".toList "cat".toList (by decide) (by decide)
     ⟨4, by decide⟩).2⟩

/-- C9 as stated fails when occurrences overlap: in `"aaa"` the string `"aa"` occurs at
index 1, after the highlighted first occurrence at index 0, yet this occurrence starts
inside the highlighted match and the tail `"a"` contains no occurrence at all. -/
theorem legacy_later_occurrence_counterexample :
    OccursAt "aa".toList "aaa".toList 1 ∧
    (legacySplit "aaa".toList "aa".toList).1.length < 1 ∧
    ¬ ((legacySplit "aaa".toList "aa".toList).1.length + "aa".toList.length ≤ 1) ∧
    (legacySplit "aaa".toList "aa".toList).2.2 = "a".toList ∧
    ¬ ∃ k, OccursAt "aa".toList (legacySplit "aaa".toList "aa".toList).2.2 k := by
  refine ⟨by decide, by decide, by decide, by decide, ?_⟩
  rintro ⟨k, hk⟩
  have h := hk.add_le
  have ht : (legacySplit "aaa".toList "aa".toList).2.2 = "a".toList := by decide
  rw [ht] at h
  simp at h

/-- C9 (amended). The legacy branch highlights the first occurrence only: when
`best_span_str` occurs in the passage, the length of the head is the smallest index at
which it occurs, so it occurs at no smaller index; and the occurrences that start at or
after the end of the highlighted match are exactly the occurrences inside the unstyled
tail. -/
theorem legacy_first_occurrence (passage best : Str) (hocc : ∃ k, OccursAt best passage k) :
    OccursAt best passage (legacySplit passage best).1.length ∧
    (∀ i, i < (legacySplit passage best).1.length → ¬ OccursAt best passage i) ∧
    (∀ j, (legacySplit passage best).1.length + best.length ≤ j →
      (OccursAt best passage j ↔
        OccursAt best (legacySplit passage best).2.2
          (j - ((legacySplit passage best).1.length + best.length)))) := by
  obtain ⟨j, hidx, hj, hmin⟩ := indexOf_of_occurs passage best hocc
  rw [legacySplit_of_indexOf passage best j hidx]
  have hlen : (passage.take j).length = j := by
    rw [List.length_take]
    exact Nat.min_eq_left hj.1
  simp only [hlen]
  refine ⟨hj, hmin, ?_⟩
  intro m hm
  have hle := hj.add_le
  unfold OccursAt
  rw [List.length_drop, List.drop_drop]
  have e : m - (j + best.length) + (j + best.length) = m := by omega
  have e' : j + best.length + (m - (j + best.length)) = m := by omega
  simp only [e, e']
  constructor
  · rintro ⟨h1, h2⟩
    exact ⟨by omega, h2⟩
  · rintro ⟨h1, h2⟩
    exact ⟨by omega, h2⟩

theorem legacy_first_occurrence_witness :
    OccursAt "at".toList "the cat sat".toList 5 ∧
    (legacySplit "the cat sat".toList "at".toList).1.length = 5 ∧
    OccursAt "at".toList "the cat sat".toList (legacySplit "the cat sat".toList "at".toList).1.length :=
  ⟨by decide, by decide,
   (legacy_first_occurrence "the cat sat".toList "at".toList ⟨5, by decide⟩).1⟩

/-! ## Claims about `apiUrl` -/

/-- C10. When no model is given (the model is absent or empty), `apiUrl` resolves to the
endpoint of the first registered model: the result is
`API_ROOT ++ "/predict/reading-comprehension"`, the URL that `apiUrl` returns for the name
of `taskModels[0]`. -/
theorem apiUrl_default (API_ROOT : Str) :
    apiUrl API_ROOT none = API_ROOT ++ "/predict/reading-comprehension".toList ∧
    apiUrl API_ROOT (some []) = API_ROOT ++ "/predict/reading-comprehension".toList ∧
    taskModels.head?.map TaskModel.name = some "BiDAF (trained on SQuAD)".toList ∧
    apiUrl API_ROOT (some "BiDAF (trained on SQuAD)".toList)
      = API_ROOT ++ "/predict/reading-comprehension".toList := by
  have h : ∀ m : Option Str,
      getProperty taskEndpoints (propertyKey (selectedModel m))
        = Property.own "reading-comprehension".toList →
      apiUrl API_ROOT m = API_ROOT ++ "/predict/reading-comprehension".toList := by
    intro m hm
    simp only [apiUrl, hm, propertyText, List.append_assoc]
    rfl
  exact ⟨h none (by decide), h (some []) (by decide), by decide, h _ (by decide)⟩

theorem apiUrl_of_own (API_ROOT name path : Str) (hname : truthy name = true)
    (h : getProperty taskEndpoints name = Property.own path) :
    apiUrl API_ROOT (some name) = API_ROOT ++ "/predict/".toList ++ path := by
  simp only [apiUrl, selectedModel, truthyStr, hname, if_true, propertyKey, h, propertyText]

/-- C11. For every model name that is a key of the name-to-path mapping, `apiUrl` returns
`API_ROOT ++ "/predict/" ++ path` for the mapped path: `reading-comprehension` for
"BiDAF (trained on SQuAD)" and `naqanet-reading-comprehension` for
"NAQANet (trained on DROP)". -/
theorem apiUrl_of_key (API_ROOT name path : Str) (h : (name, path) ∈ taskEndpoints) :
    apiUrl API_ROOT (some name) = API_ROOT ++ "/predict/".toList ++ path ∧
    ((name = "BiDAF (trained on SQuAD)".toList ∧ path = "reading-comprehension".toList) ∨
      (name = "NAQANet (trained on DROP)".toList ∧
        path = "naqanet-reading-comprehension".toList)) := by
  simp only [taskEndpoints, List.mem_cons, List.mem_singleton, List.not_mem_nil, or_false,
    Prod.mk.injEq] at h
  rcases h with ⟨h1, h2⟩ | ⟨h1, h2⟩
  · subst h1 h2
    exact ⟨apiUrl_of_own _ _ _ (by decide) (by decide), Or.inl ⟨rfl, rfl⟩⟩
  · subst h1 h2
    exact ⟨apiUrl_of_own _ _ _ (by decide) (by decide), Or.inr ⟨rfl, rfl⟩⟩

theorem apiUrl_of_key_witness :
    (("NAQANet (trained on DROP)".toList, "naqanet-reading-comprehension".toList)
        ∈ taskEndpoints) ∧
    apiUrl "https://demo".toList (some "NAQANet (trained on DROP)".toList)
      = "https://demo".toList ++ "/predict/".toList ++ "naqanet-reading-comprehension".toList :=
  ⟨by decide,
   (apiUrl_of_key "https://demo".toList "NAQANet (trained on DROP)".toList
     "naqanet-reading-comprehension".toList (by decide)).1⟩

theorem lookup_taskEndpoints_none (model : Str)
    (hkey : model ∉ taskEndpoints.map Prod.fst) : taskEndpoints.lookup model = none := by
  have h1 : model ≠ "BiDAF (trained on SQuAD)".toList := by
    intro h; apply hkey; rw [h]; decide
  have h2 : model ≠ "NAQANet (trained on DROP)".toList := by
    intro h; apply hkey; rw [h]; decide
  have b1 : (model == "BiDAF (trained on SQuAD)".toList) = false := beq_false_of_ne h1
  have b2 : (model == "NAQANet (trained on DROP)".toList) = false := beq_false_of_ne h2
  simp only [taskEndpoints, List.lookup, b1, b2]

/-- C12 as stated fails for a name inherited from `Object.prototype`: `toString` is not
empty and is not a key of the mapping, yet `taskEndpoints["toString"]` is the inherited
function, not `undefined`, so the URL does not end in `/predict/undefined`. -/
theorem apiUrl_unknown_counterexample :
    "toString".toList ≠ [] ∧ "toString".toList ∉ taskEndpoints.map Prod.fst ∧
    apiUrl "https://demo".toList (some "toString".toList)
      ≠ "https://demo".toList ++ "/predict/undefined".toList ∧
    apiUrl "https://demo".toList (some "toString".toList)
      = "https://demo/predict/function toString() \x7b [native code] \x7d".toList := by
  decide

/-- C12 (amended). `apiUrl` does not validate the model name: for a non-empty model name
that is neither a key of the mapping nor the name of a member inherited from
`Object.prototype`, it returns `API_ROOT ++ "/predict/undefined"`. -/
theorem apiUrl_unknown (API_ROOT model : Str) (hne : model ≠ [])
    (hkey : model ∉ taskEndpoints.map Prod.fst) (hproto : model ∉ objectPrototypeKeys) :
    apiUrl API_ROOT (some model) = API_ROOT ++ "/predict/undefined".toList := by
  have ht : truthy model = true := (truthy_eq_true_iff model).2 hne
  simp only [apiUrl, selectedModel, truthyStr, ht, if_true, propertyKey, getProperty,
    lookup_taskEndpoints_none model hkey, hproto, if_false, propertyText, List.append_assoc]
  rfl

theorem apiUrl_unknown_witness :
    ("GPT".toList ≠ [] ∧ "GPT".toList ∉ taskEndpoints.map Prod.fst ∧
      "GPT".toList ∉ objectPrototypeKeys) ∧
    apiUrl "https://demo".toList (some "GPT".toList)
      = "https://demo".toList ++ "/predict/undefined".toList :=
  ⟨⟨by decide, by decide, by decide⟩,
   apiUrl_unknown "https://demo".toList "GPT".toList (by decide) (by decide) (by decide)⟩

theorem span_tag_ne : "question_span".toList ≠ "passage_span".toList := by decide

/-- The `passage_span` branch of `AnswerByType`, for truthy question, passage and value. -/
theorem AnswerByType_passage_span (req : RequestData) (resp : ResponseData) (ans : Answer)
    (p q : Str) (spans : List Span) (value : Value)
    (hp : req.passage = some p) (hpne : p ≠ []) (hq : req.question = some q) (hqne : q ≠ [])
    (hans : resp.answer = some ans) (hs : ans.spans = some spans)
    (hv : ans.value = some value) (hvt : truthyValue (some value) = true)
    (htype : ans.answer_type = some "passage_span".toList) :
    AnswerByType (some req) (some resp) =
      Element.section
        [ { label := "Answer".toList, children := [Node.value value] },
          { label := "Explanation".toList,
            children := [Node.text "The model decided the answer was in the passage.".toList] },
          { label := "Passage".toList,
            children := [Node.multiSpanHighlight
              (MultiSpanHighlight (some p) (some spans)
                (some (spans.map fun _ => "highlight__answer".toList)))] },
          { label := "Question".toList, children := [Node.text q] } ]
        (Attention resp) := by
  have hp' : truthy p = true := (truthy_eq_true_iff p).2 hpne
  have hq' : truthy q = true := (truthy_eq_true_iff q).2 hqne
  unfold AnswerByType
  simp only [hans, Option.getD_some]
  rw [if_pos htype]
  simp only [hp, hq, hs, hv, hp', hq', hvt, Bool.and_self, if_true]

/-- The `question_span` branch of `AnswerByType`, for truthy question, passage and value. -/
theorem AnswerByType_question_span (req : RequestData) (resp : ResponseData) (ans : Answer)
    (p q : Str) (spans : List Span) (value : Value)
    (hp : req.passage = some p) (hpne : p ≠ []) (hq : req.question = some q) (hqne : q ≠ [])
    (hans : resp.answer = some ans) (hs : ans.spans = some spans)
    (hv : ans.value = some value) (hvt : truthyValue (some value) = true)
    (htype : ans.answer_type = some "question_span".toList) :
    AnswerByType (some req) (some resp) =
      Element.section
        [ { label := "Answer".toList, children := [Node.value value] },
          { label := "Explanation".toList,
            children := [Node.text "The model decided the answer was in the question.".toList] },
          { label := "Passage".toList, children := [Node.text p] },
          { label := "Question".toList,
            children := [Node.multiSpanHighlight
              (MultiSpanHighlight (some q) (some spans)
                (some (spans.map fun _ => "highlight__answer".toList)))] } ]
        (Attention resp) := by
  have hp' : truthy p = true := (truthy_eq_true_iff p).2 hpne
  have hq' : truthy q = true := (truthy_eq_true_iff q).2 hqne
  have hne : ans.answer_type ≠ some "passage_span".toList := by
    rw [htype]
    exact fun h => span_tag_ne (Option.some.inj h)
  unfold AnswerByType
  simp only [hans, Option.getD_some]
  rw [if_neg hne, if_pos htype]
  simp only [hp, hq, hs, hv, hp', hq', hvt, Bool.and_self, if_true]

/-- C13 as stated fails when a field is present but empty: with question, passage and
spans present and the value present as the empty string, the `passage_span` branch returns
the placeholder. -/
theorem span_branch_empty_value_counterexample :
    AnswerByType (some ⟨some "The cat sat.".toList, some "Who sat?".toList⟩)
        (some ⟨some ⟨some "passage_span".toList, some [(4, 7)], some (Value.str []), none, none⟩,
          none, none, none, none⟩)
      = NoAnswer := by
  decide

/-- C13 (amended). Span branches highlight the right text: when question, passage and
value are present and not empty and spans is present, the `passage_span` branch renders the
answer value, the explanation that the answer was in the passage, the passage passed
through `MultiSpanHighlight` with all the answer's spans, each styled `highlight__answer`,
and the question unmodified; the `question_span` branch renders the same with the roles
swapped.  The style list has the length of the span list. -/
theorem span_branches_highlight (req : RequestData) (resp : ResponseData) (ans : Answer)
    (p q : Str) (spans : List Span) (value : Value)
    (hp : req.passage = some p) (hpne : p ≠ []) (hq : req.question = some q) (hqne : q ≠ [])
    (hans : resp.answer = some ans) (hs : ans.spans = some spans)
    (hv : ans.value = some value) (hvt : truthyValue (some value) = true) :
    (ans.answer_type = some "passage_span".toList →
      AnswerByType (some req) (some resp) =
        Element.section
          [ { label := "Answer".toList, children := [Node.value value] },
            { label := "Explanation".toList,
              children := [Node.text "The model decided the answer was in the passage.".toList] },
            { label := "Passage".toList,
              children := [Node.multiSpanHighlight
                (MultiSpanHighlight (some p) (some spans)
                  (some (List.replicate spans.length "highlight__answer".toList)))] },
            { label := "Question".toList, children := [Node.text q] } ]
          (Attention resp)) ∧
    (ans.answer_type = some "question_span".toList →
      AnswerByType (some req) (some resp) =
        Element.section
          [ { label := "Answer".toList, children := [Node.value value] },
            { label := "Explanation".toList,
              children := [Node.text "The model decided the answer was in the question.".toList] },
            { label := "Passage".toList, children := [Node.text p] },
            { label := "Question".toList,
              children := [Node.multiSpanHighlight
                (MultiSpanHighlight (some q) (some spans)
                  (some (List.replicate spans.length "highlight__answer".toList)))] } ]
          (Attention resp)) ∧
    (List.replicate spans.length "highlight__answer".toList).length = spans.length := by
  have hrep : (spans.map fun _ => "highlight__answer".toList)
      = List.replicate spans.length "highlight__answer".toList := by
    rw [List.map_const']
  refine ⟨fun htype => ?_, fun htype => ?_, List.length_replicate _ _⟩
  · rw [← hrep]
    exact AnswerByType_passage_span req resp ans p q spans value hp hpne hq hqne hans hs hv
      hvt htype
  · rw [← hrep]
    exact AnswerByType_question_span req resp ans p q spans value hp hpne hq hqne hans hs hv
      hvt htype

theorem span_branches_highlight_witness :
    AnswerByType (some ⟨some "The cat sat.".toList, some "Who sat?".toList⟩)
        (some ⟨some ⟨some "passage_span".toList, some [(4, 7)],
          some (Value.str "cat".toList), none, none⟩, none, none, none, none⟩)
      = Element.section
          [ { label := "Answer".toList, children := [Node.value (Value.str "cat".toList)] },
            { label := "Explanation".toList,
              children := [Node.text "The model decided the answer was in the passage.".toList] },
            { label := "Passage".toList,
              children := [Node.multiSpanHighlight
                (some [ { key := (0, 4), className := none, text := "The ".toList },
                        { key := (4, 7), className := some "highlight__answer".toList,
                          text := "cat".toList },
                        { key := (7, 12), className := none, text := " sat.".toList } ])] },
            { label := "Question".toList, children := [Node.text "Who sat?".toList] } ]
          none :=
  (span_branches_highlight ⟨some "The cat sat.".toList, some "Who sat?".toList⟩
    ⟨some ⟨some "passage_span".toList, some [(4, 7)], some (Value.str "cat".toList), none, none⟩,
      none, none, none, none⟩
    ⟨some "passage_span".toList, some [(4, 7)], some (Value.str "cat".toList), none, none⟩
    "The cat sat.".toList "Who sat?".toList [(4, 7)] (Value.str "cat".toList)
    rfl (by decide) rfl (by decide) rfl rfl rfl rfl).1 rfl

theorem AnswerByType_legacy_falsy (req : RequestData) (resp : ResponseData)
    (hbr : branchOf resp = Branch.legacy) (h : missingOrEmpty resp.best_span_str) :
    AnswerByType (some req) (some resp) = NoAnswer := by
  obtain ⟨h1, h2, h3, h4⟩ := (branchOf_legacy_iff resp).1 hbr
  unfold AnswerByType
  simp only
  rw [if_neg h1, if_neg h2, if_neg h3, if_neg h4]
  rcases h with h | h <;> simp only [h] <;> split <;> first | rfl | simp_all [truthy]

/-- C14 as stated fails when a field is present but empty: with no answer type, a
question and a passage, and `best_span_str` present as the empty string, the legacy path
returns the placeholder, not the `best_span_str` view. -/
theorem legacy_dispatch_empty_counterexample :
    AnswerByType (some ⟨some "The cat sat.".toList, some "Who sat?".toList⟩)
        (some ⟨none, some [], none, none, none⟩)
      = NoAnswer := by
  decide

/-- C14 (amended). Legacy fallback dispatch: for a response whose answer type is absent or
is none of `passage_span`, `question_span`, `count`, `arithmetic`, `AnswerByType` takes the
legacy path: it renders the `best_span_str` view when question, passage and `best_span_str`
are all present and not empty, and the placeholder when one of them is missing or empty. -/
theorem legacy_dispatch (req : RequestData) (resp : ResponseData)
    (h1 : (resp.answer.getD emptyAnswer).answer_type ≠ some "passage_span".toList)
    (h2 : (resp.answer.getD emptyAnswer).answer_type ≠ some "question_span".toList)
    (h3 : (resp.answer.getD emptyAnswer).answer_type ≠ some "count".toList)
    (h4 : (resp.answer.getD emptyAnswer).answer_type ≠ some "arithmetic".toList) :
    (∀ p q best : Str, req.passage = some p → p ≠ [] → req.question = some q → q ≠ [] →
      resp.best_span_str = some best → best ≠ [] →
      AnswerByType (some req) (some resp) =
        Element.section
          [ { label := "Answer".toList, children := [Node.text best] },
            { label := "Passage Context".toList,
              children :=
                [ Node.span none (legacySplit p best).1,
                  Node.span (some "highlight__answer".toList) best,
                  Node.span none (legacySplit p best).2.2 ] },
            { label := "Question".toList, children := [Node.text q] } ]
          (Attention resp)) ∧
    ((missingOrEmpty req.passage ∨ missingOrEmpty req.question ∨
        missingOrEmpty resp.best_span_str) →
      AnswerByType (some req) (some resp) = NoAnswer) := by
  have hbr : branchOf resp = Branch.legacy := (branchOf_legacy_iff resp).2 ⟨h1, h2, h3, h4⟩
  constructor
  · intro p q best hp hpne hq hqne hb hbne
    exact AnswerByType_legacy req resp p q best hp hpne hq hqne hb hbne hbr
  · rintro (h | h | h)
    · exact AnswerByType_of_passage_falsy req resp h
    · exact AnswerByType_of_question_falsy req resp h
    · exact AnswerByType_legacy_falsy req resp hbr h

theorem legacy_dispatch_witness :
    AnswerByType (some ⟨some "The cat sat.".toList, some "Who sat?".toList⟩)
        (some ⟨some ⟨some "span".toList, none, none, none, none⟩, some "cat".toList,
          none, none, none⟩)
      = Element.section
          [ { label := "Answer".toList, children := [Node.text "cat".toList] },
            { label := "Passage Context".toList,
              children :=
                [ Node.span none "The ".toList,
                  Node.span (some "highlight__answer".toList) "cat".toList,
                  Node.span none " sat.".toList ] },
            { label := "Question".toList, children := [Node.text "Who sat?".toList] } ]
          none :=
  (legacy_dispatch ⟨some "The cat sat.".toList, some "Who sat?".toList⟩
    ⟨some ⟨some "span".toList, none, none, none, none⟩, some "cat".toList, none, none, none⟩
    (by decide) (by decide) (by decide) (by decide)).1
    "The cat sat.".toList "Who sat?".toList "cat".toList rfl (by decide) rfl (by decide) rfl
    (by decide)

/-! ## The loop of `MultiSpanHighlight`, span by span -/

theorem forEachSpan_append (T : Str) (styles : List Str) (pre post : List Span) :
    ∀ (i : Nat) (st : HState),
      forEachSpan T styles (pre ++ post) i st
        = forEachSpan T styles post (i + pre.length) (forEachSpan T styles pre i st) := by
  induction pre with
  | nil => intro i st; simp [forEachSpan]
  | cons s rest ih =>
    intro i st
    have e : i + (rest.length + 1) = i + 1 + rest.length := by omega
    simp only [List.cons_append, forEachSpan, List.length_cons]
    rw [e]
    exact ih (i + 1) _

/-- A span that starts at or before the cursor adds no unstyled segment: the step pushes
its styled segment, from the cursor, when the span ends after the cursor, and nothing
otherwise. -/
theorem highlightStep_of_start_le (T : Str) (styles : List Str) (st : HState) (s : Span)
    (i : Nat) (h : s.1 ≤ st.curIndex) :
    highlightStep T styles st s i =
      if st.curIndex < s.2 then
        { curIndex := s.2,
          spanList := st.spanList ++ [styledSegment T styles st.curIndex s.2 i] }
      else st := by
  have hgt : ¬ s.1 > st.curIndex := by omega
  simp only [highlightStep, hgt, if_false, gt_iff_lt, styledSegment]

theorem highlightStep_spanList (T : Str) (styles : List Str) (st : HState) (s : Span)
    (i : Nat) : ∃ more, (highlightStep T styles st s i).spanList = st.spanList ++ more := by
  unfold highlightStep
  by_cases h1 : s.1 > st.curIndex
  · simp only [h1, if_true]
    split
    · exact ⟨_, List.append_assoc _ _ _⟩
    · exact ⟨_, rfl⟩
  · simp only [h1, if_false]
    split
    · exact ⟨_, rfl⟩
    · exact ⟨[], by simp⟩

theorem forEachSpan_spanList (T : Str) (styles : List Str) (S : List Span) :
    ∀ (i : Nat) (st : HState),
      ∃ more, (forEachSpan T styles S i st).spanList = st.spanList ++ more := by
  induction S with
  | nil => intro i st; exact ⟨[], by simp [forEachSpan]⟩
  | cons s rest ih =>
    intro i st
    obtain ⟨m1, h1⟩ := highlightStep_spanList T styles st s i
    obtain ⟨m2, h2⟩ := ih (i + 1) (highlightStep T styles st s i)
    exact ⟨m1 ++ m2, by simp only [forEachSpan, h2, h1, List.append_assoc]⟩

theorem pushLast_spanList (T : Str) (st : HState) :
    ∃ more, pushLast T st = st.spanList ++ more := by
  unfold pushLast
  split
  · exact ⟨_, rfl⟩
  · exact ⟨[], by simp⟩

/-- C17. Span ordering is unchecked: for every non-empty string and every span list,
overlapping and descending lists included, `MultiSpanHighlight` returns a segment sequence;
no input is rejected. -/
theorem multiSpanHighlight_total (T : Str) (S : List Span) (styles : List Str)
    (hT : T ≠ []) :
    ∃ segs, MultiSpanHighlight (some T) (some S) (some styles) = some segs :=
  ⟨_, MultiSpanHighlight_of_ne_nil T S styles hT⟩

theorem multiSpanHighlight_total_witness :
    "abcdef".toList ≠ [] ∧
    ∃ segs, MultiSpanHighlight (some "abcdef".toList) (some [(3, 5), (1, 4), (0, 2)])
      (some ["x".toList, "y".toList, "z".toList]) = some segs :=
  ⟨by decide,
   multiSpanHighlight_total "abcdef".toList [(3, 5), (1, 4), (0, 2)]
     ["x".toList, "y".toList, "z".toList] (by decide)⟩

/-- C18 as stated fails for a pair whose start is after its end: in `"abcdef"` with the
spans `[(0,3), (5,3)]` the cursor is 3 when `(5,3)` is processed, so this pair ends at the
cursor, yet its step pushes the unstyled segment `[3, 5)` with the text `de`. -/
theorem multiSpanHighlight_inverted_span_counterexample :
    (loopState "abcdef".toList ["x".toList, "y".toList] [(0, 3)]).curIndex = 3 ∧
    ((5, 3) : Span).2 ≤ (loopState "abcdef".toList ["x".toList, "y".toList] [(0, 3)]).curIndex ∧
    highlightStep "abcdef".toList ["x".toList, "y".toList]
        (loopState "abcdef".toList ["x".toList, "y".toList] [(0, 3)]) (5, 3) 1
      ≠ loopState "abcdef".toList ["x".toList, "y".toList] [(0, 3)] ∧
    MultiSpanHighlight (some "abcdef".toList) (some [(0, 3), (5, 3)])
        (some ["x".toList, "y".toList])
      = some [ { key := (0, 3), className := some "x".toList, text := "abc".toList },
               { key := (3, 5), className := none, text := "de".toList },
               { key := (5, 6), className := none, text := "f".toList } ] := by
  decide

/-- C18 (amended). Reconstruction needs no ordering precondition: for a non-empty string
`T` and any span list (overlapping, descending or out of bounds), the segment texts of
`MultiSpanHighlight` concatenate to exactly `T`.  A span that ends at or before the cursor
adds no styled segment, and nothing at all when its start is not after its end; a span that
starts before the cursor and ends after it is cut to start at the cursor.  A pair that ends
at or before the cursor and starts after it pushes the unstyled text from the cursor to its
start, and nothing else. -/
theorem multiSpanHighlight_reconstructs_unordered (T : Str) (S : List Span)
    (styles : List Str) (hT : T ≠ []) :
    (∃ segs, MultiSpanHighlight (some T) (some S) (some styles) = some segs ∧
      segmentsText segs = T) ∧
    (∀ (st : HState) (s : Span) (i : Nat), s.2 ≤ st.curIndex →
      styledSegments (highlightStep T styles st s i).spanList = styledSegments st.spanList ∧
      (s.1 ≤ s.2 → highlightStep T styles st s i = st)) ∧
    (∀ (st : HState) (s : Span) (i : Nat), s.1 < st.curIndex → st.curIndex < s.2 →
      highlightStep T styles st s i =
        { curIndex := s.2,
          spanList := st.spanList ++
            [{ key := (st.curIndex, s.2), className := styles[i]?,
               text := jsSlice T st.curIndex (some s.2) }] }) ∧
    (∀ (st : HState) (s : Span) (i : Nat), s.2 ≤ st.curIndex → st.curIndex < s.1 →
      highlightStep T styles st s i =
        { curIndex := s.1,
          spanList := st.spanList ++
            [{ key := (st.curIndex, s.1), className := none,
               text := jsSlice T st.curIndex (some s.1) }] }) := by
  refine ⟨⟨_, MultiSpanHighlight_of_ne_nil T S styles hT, segmentsText_highlight T S styles⟩,
    ?_, ?_, ?_⟩
  · intro st s i hend
    constructor
    · unfold highlightStep
      by_cases h1 : s.1 > st.curIndex
      · have h2 : ¬ s.2 > s.1 := by omega
        simp [h1, h2, styledSegments_append, styledSegments]
      · have h2 : ¬ s.2 > st.curIndex := by omega
        simp [h1, h2]
    · intro hle
      rw [highlightStep_of_start_le T styles st s i (by omega), if_neg (by omega)]
  · intro st s i h1 h2
    rw [highlightStep_of_start_le T styles st s i (by omega), if_pos h2]
    rfl
  · intro st s i hend hstart
    have h1 : s.1 > st.curIndex := hstart
    have h2 : ¬ s.2 > s.1 := by omega
    simp only [highlightStep, h1, if_true, h2, if_false]

theorem multiSpanHighlight_reconstructs_unordered_witness :
    "abcdef".toList ≠ [] ∧
    ∃ segs, MultiSpanHighlight (some "abcdef".toList) (some [(3, 5), (1, 4), (4, 9)])
        (some ["x".toList, "y".toList, "z".toList]) = some segs ∧
      segmentsText segs = "abcdef".toList :=
  ⟨by decide,
   (multiSpanHighlight_reconstructs_unordered "abcdef".toList [(3, 5), (1, 4), (4, 9)]
     ["x".toList, "y".toList, "z".toList] (by decide)).1⟩

theorem loopState_snoc (T : Str) (styles : List Str) (pre : List Span) (prev : Span) :
    loopState T styles (pre ++ [prev])
      = highlightStep T styles (loopState T styles pre) prev pre.length := by
  simp only [loopState, forEachSpan_append, forEachSpan, Nat.zero_add]

/-- A span that ends after both the cursor and its own start pushes its styled segment
last and leaves the cursor at its end. -/
theorem highlightStep_emits (T : Str) (styles : List Str) (st : HState) (s : Span) (i : Nat)
    (h : max st.curIndex s.1 < s.2) :
    (highlightStep T styles st s i).curIndex = s.2 ∧
    (highlightStep T styles st s i).spanList.getLast?
      = some (styledSegment T styles (max st.curIndex s.1) s.2 i) := by
  unfold highlightStep
  by_cases h1 : s.1 > st.curIndex
  · have hm : max st.curIndex s.1 = s.1 := max_eq_right (by omega)
    rw [hm] at h ⊢
    simp [h1, h, styledSegment]
  · have hm : max st.curIndex s.1 = st.curIndex := max_eq_left (by omega)
    rw [hm] at h ⊢
    simp [h1, h, styledSegment]

theorem MultiSpanHighlight_split (T : Str) (styles : List Str) (pre post : List Span)
    (s : Span) (hT : T ≠ []) :
    MultiSpanHighlight (some T) (some (pre ++ s :: post)) (some styles)
      = some (pushLast T (forEachSpan T styles post (pre.length + 1)
          (highlightStep T styles (loopState T styles pre) s pre.length))) := by
  rw [MultiSpanHighlight_of_ne_nil T _ styles hT, forEachSpan_append]
  simp only [forEachSpan, Nat.zero_add, loopState]

/-- C15 as stated fails after a zero-length span: in `[(0,2), (2,2), (2,4)]` the third span
starts at the cursor, which is the end of the previous span `(2,2)`, but the segment before
its styled segment is the styled segment of the first span; the previous span has no
segment at all. -/
theorem span_at_cursor_counterexample :
    (loopState "abcdef".toList ["x".toList, "y".toList, "z".toList] [(0, 2), (2, 2)]).curIndex
      = 2 ∧
    MultiSpanHighlight (some "abcdef".toList) (some [(0, 2), (2, 2), (2, 4)])
        (some ["x".toList, "y".toList, "z".toList])
      = some [ { key := (0, 2), className := some "x".toList, text := "ab".toList },
               { key := (2, 4), className := some "z".toList, text := "cd".toList },
               { key := (4, 6), className := none, text := "ef".toList } ] := by
  decide

/-- C15 (amended). A span whose start equals the cursor reached when it is processed
contributes no preceding unstyled segment: its step pushes its styled segment only (or
nothing, when it is empty), so in the output its styled segment directly follows the
segments emitted before it.  For the first span these are none and the cursor is 0; after a
previous span that emitted a styled segment the cursor is that span's end and the segment
before is that styled segment. -/
theorem span_at_cursor (T : Str) (styles : List Str) (pre post : List Span) (s : Span)
    (hstart : s.1 = (loopState T styles pre).curIndex) :
    (highlightStep T styles (loopState T styles pre) s pre.length =
      if s.1 < s.2 then
        { curIndex := s.2,
          spanList := (loopState T styles pre).spanList ++
            [styledSegment T styles s.1 s.2 pre.length] }
      else loopState T styles pre) ∧
    (T ≠ [] → s.1 < s.2 → ∃ later,
      MultiSpanHighlight (some T) (some (pre ++ s :: post)) (some styles)
        = some ((loopState T styles pre).spanList ++
            styledSegment T styles s.1 s.2 pre.length :: later)) ∧
    (pre = [] →
      (loopState T styles pre).spanList = [] ∧ (loopState T styles pre).curIndex = 0) ∧
    (∀ (pre' : List Span) (prev : Span), pre = pre' ++ [prev] →
      max (loopState T styles pre').curIndex prev.1 < prev.2 →
      (loopState T styles pre).curIndex = prev.2 ∧
      (loopState T styles pre).spanList.getLast?
        = some (styledSegment T styles (max (loopState T styles pre').curIndex prev.1)
            prev.2 pre'.length)) := by
  have hstep : highlightStep T styles (loopState T styles pre) s pre.length =
      if s.1 < s.2 then
        { curIndex := s.2,
          spanList := (loopState T styles pre).spanList ++
            [styledSegment T styles s.1 s.2 pre.length] }
      else loopState T styles pre := by
    rw [highlightStep_of_start_le T styles _ s pre.length (le_of_eq hstart), ← hstart]
  refine ⟨hstep, ?_, ?_, ?_⟩
  · intro hT hlt
    rw [MultiSpanHighlight_split T styles pre post s hT, hstep, if_pos hlt]
    obtain ⟨m1, h1⟩ := forEachSpan_spanList T styles post (pre.length + 1)
      { curIndex := s.2,
        spanList := (loopState T styles pre).spanList ++
          [styledSegment T styles s.1 s.2 pre.length] }
    obtain ⟨m2, h2⟩ := pushLast_spanList T (forEachSpan T styles post (pre.length + 1)
      { curIndex := s.2,
        spanList := (loopState T styles pre).spanList ++
          [styledSegment T styles s.1 s.2 pre.length] })
    refine ⟨m1 ++ m2, ?_⟩
    rw [h2, h1]
    simp only [List.append_assoc, List.singleton_append, List.cons_append, List.nil_append]
  · intro hpre
    subst hpre
    exact ⟨rfl, rfl⟩
  · intro pre' prev hpre hmax
    subst hpre
    rw [loopState_snoc]
    exact highlightStep_emits T styles _ prev pre'.length hmax

theorem span_at_cursor_witness :
    ((2, 4) : Span).1 = (loopState "abcdef".toList ["x".toList, "y".toList] [(0, 2)]).curIndex ∧
    highlightStep "abcdef".toList ["x".toList, "y".toList]
        (loopState "abcdef".toList ["x".toList, "y".toList] [(0, 2)]) (2, 4) 1
      = { curIndex := 4,
          spanList := [ { key := (0, 2), className := some "x".toList, text := "ab".toList },
                        { key := (2, 4), className := some "y".toList, text := "cd".toList } ] } :=
  ⟨by decide,
   (span_at_cursor "abcdef".toList ["x".toList, "y".toList] [(0, 2)] [] (2, 4)
     (by decide)).1⟩

/-- One loop step on a span `start ≤ end` that starts at or after the cursor: the cursor
moves to the span's end and the styled segment is pushed exactly when the span is not
empty. -/
theorem highlightStep_interval (T : Str) (styles : List Str) (st : HState) (s : Span)
    (i : Nat) (h1 : st.curIndex ≤ s.1) (h2 : s.1 ≤ s.2) :
    (highlightStep T styles st s i).curIndex = s.2 ∧
    styledSegments (highlightStep T styles st s i).spanList
      = styledSegments st.spanList ++
          (if s.1 < s.2 then styledSegments [styledSegment T styles s.1 s.2 i] else []) := by
  by_cases hlt : s.1 < s.2
  · rw [if_pos hlt]
    exact highlightStep_proper T styles st s i h1 hlt
  · have heq : s.1 = s.2 := by omega
    rw [if_neg hlt]
    obtain ⟨cur, l⟩ := st
    simp only at h1
    unfold highlightStep
    by_cases hgt : s.1 > cur
    · have hn : ¬ s.2 > s.1 := by omega
      simp only [hgt, if_true, hn, if_false]
      exact ⟨heq, by simp [styledSegments_append, styledSegments]⟩
    · have hn : ¬ s.2 > cur := by omega
      simp only [hgt, if_false, hn]
      exact ⟨by omega, by simp⟩

theorem styledSegments_forEach_interval (T : Str) (styles : List Str) (S : List Span) :
    ∀ (i : Nat) (st : HState),
      AscendingFrom st.curIndex S → (∀ s ∈ S, s.1 ≤ s.2) → i + S.length ≤ styles.length →
      styledSegments (forEachSpan T styles S i st).spanList
        = styledSegments st.spanList ++
            ((S.zip (styles.drop i)).filter fun p => decide (p.1.1 < p.1.2)).map
              fun p => (jsSlice T p.1.1 (some p.1.2), p.2) := by
  induction S with
  | nil => intro i st _ _ _; simp [forEachSpan]
  | cons s rest ih =>
    intro i st hch hle hlen
    have hs : s.1 ≤ s.2 := hle s (List.mem_cons_self _ _)
    simp only [List.length_cons] at hlen
    have hi : i < styles.length := by omega
    obtain ⟨hc, hseg⟩ := highlightStep_interval T styles st s i hch.1 hs
    have := ih (i + 1) (highlightStep T styles st s i) (by rw [hc]; exact hch.2)
      (fun x hx => hle x (List.mem_cons_of_mem _ hx)) (by omega)
    simp only [forEachSpan]
    rw [this, hseg]
    conv_rhs => rw [List.drop_eq_getElem_cons hi, List.zip_cons_cons]
    by_cases hlt : s.1 < s.2
    · rw [if_pos hlt, List.filter_cons_of_pos (by simpa using hlt)]
      simp only [styledSegments, styledSegment, List.getElem?_eq_getElem hi,
        List.filterMap_cons, List.filterMap_nil, Option.map_some', List.append_assoc,
        List.singleton_append, List.map_cons]
    · rw [if_neg hlt, List.filter_cons_of_neg (by simpa using hlt)]
      simp only [List.append_nil]

theorem length_filter_zip (q : Span → Bool) (S : List Span) :
    ∀ styles : List Str, S.length ≤ styles.length →
      ((S.zip styles).filter fun p => q p.1).length = (S.filter q).length := by
  induction S with
  | nil => intro styles _; simp
  | cons s rest ih =>
    intro styles hlen
    cases styles with
    | nil => simp at hlen
    | cons c cs =>
      simp only [List.length_cons, Nat.add_le_add_iff_right] at hlen
      simp only [List.zip_cons_cons, List.filter_cons]
      by_cases hq : q s = true
      · simp only [hq, if_true, List.length_cons, ih cs hlen]
      · have hq' : q s = false := by simpa using hq
        simp only [hq', Bool.false_eq_true, if_false, ih cs hlen]

/-- C16. A zero-length span contributes no highlighted segment: for a string and an
ascending, non-overlapping list of spans over it, with one style per span, the styled
segments of the output are, in order, exactly the slices and styles of the spans with
`start < end`; their number is the number of such spans. -/
theorem zero_length_span_not_highlighted (T : Str) (S : List Span) (styles : List Str)
    (hS : SpansOver T S) (hA : Ascending S) (hlen : styles.length = S.length) :
    styledSegments (emitted (MultiSpanHighlight (some T) (some S) (some styles)))
      = ((S.zip styles).filter fun p => decide (p.1.1 < p.1.2)).map
          (fun p => (jsSlice T p.1.1 (some p.1.2), p.2)) ∧
    (styledSegments (emitted (MultiSpanHighlight (some T) (some S) (some styles)))).length
      = (S.filter fun s => decide (s.1 < s.2)).length := by
  have hmain : styledSegments (emitted (MultiSpanHighlight (some T) (some S) (some styles)))
      = ((S.zip styles).filter fun p => decide (p.1.1 < p.1.2)).map
          (fun p => (jsSlice T p.1.1 (some p.1.2), p.2)) := by
    cases T with
    | nil =>
      have hnil : ((S.zip styles).filter fun p => decide (p.1.1 < p.1.2)) = [] := by
        rw [List.filter_eq_nil_iff]
        intro p hp
        have hmem : p.1 ∈ S := (List.of_mem_zip (a := p.1) (b := p.2) hp).1
        have := hS p.1 hmem
        simp only [List.length_nil, Nat.cast_zero] at this
        simp only [decide_eq_true_eq]
        omega
      rw [hnil]
      simp [MultiSpanHighlight, truthy, emitted, styledSegments]
    | cons c cs =>
      rw [MultiSpanHighlight_of_ne_nil _ S styles (List.cons_ne_nil _ _)]
      simp only [emitted, Option.getD_some]
      rw [styledSegments_pushLast]
      have hch : AscendingFrom 0 S := by
        cases S with
        | nil => exact trivial
        | cons s rest => exact ⟨(hS s (List.mem_cons_self _ _)).1, hA⟩
      have := styledSegments_forEach_interval (c :: cs) styles S 0
        { curIndex := 0, spanList := [] } hch (fun s hs => (hS s hs).2.1) (by omega)
      rw [this]
      simp [styledSegments]
  refine ⟨hmain, ?_⟩
  rw [hmain, List.length_map]
  exact length_filter_zip (fun s => decide (s.1 < s.2)) S styles (by omega)

theorem zero_length_span_not_highlighted_witness :
    (SpansOver "abcdef".toList [(0, 2), (3, 3), (4, 5)] ∧ Ascending [(0, 2), (3, 3), (4, 5)]) ∧
    styledSegments (emitted (MultiSpanHighlight (some "abcdef".toList)
        (some [(0, 2), (3, 3), (4, 5)]) (some ["x".toList, "y".toList, "z".toList])))
      = [("ab".toList, "x".toList), ("e".toList, "z".toList)] :=
  ⟨⟨by decide, by decide⟩,
   (zero_length_span_not_highlighted "abcdef".toList [(0, 2), (3, 3), (4, 5)]
     ["x".toList, "y".toList, "z".toList] (by decide) (by decide) (by decide)).1⟩

/-! ## The index ranges of the segments -/

theorem jsSlice_none_eq_length (T : Str) (a : Int) (ha : 0 ≤ a) :
    jsSlice T a none = jsSlice T a (some (T.length : Int)) := by
  rw [jsSlice_none_of_nonneg T a ha, jsSlice_of_nonneg T a _ ha (by omega)]
  rw [List.take_of_length_le]
  simp only [List.length_drop, Int.toNat_ofNat]
  omega

theorem rangeChain_snoc (T : Str) (c : Option Str) (b e : Int) (hbe : b < e) :
    ∀ (a : Int) (xs : List Segment), RangeChain T a xs b →
      RangeChain T a (xs ++ [{ key := (b, e), className := c, text := jsSlice T b (some e) }])
        e := by
  intro a xs
  induction xs generalizing a with
  | nil =>
    intro h
    simp only [RangeChain] at h
    subst h
    exact ⟨rfl, hbe, rfl, rfl⟩
  | cons g rest ih =>
    intro h
    obtain ⟨h1, h2, h3, h4⟩ := h
    exact ⟨h1, h2, h3, ih _ h4⟩

theorem rangeChain_step (T : Str) (styles : List Str) (st : HState) (s : Span) (i : Nat)
    (h : RangeChain T 0 st.spanList st.curIndex) :
    RangeChain T 0 (highlightStep T styles st s i).spanList
      (highlightStep T styles st s i).curIndex := by
  unfold highlightStep
  by_cases h1 : s.1 > st.curIndex
  · simp only [h1, if_true]
    have h' := rangeChain_snoc T none st.curIndex s.1 h1 0 st.spanList h
    split
    · next h2 => exact rangeChain_snoc T _ s.1 s.2 h2 0 _ h'
    · exact h'
  · simp only [h1, if_false]
    split
    · next h2 => exact rangeChain_snoc T _ st.curIndex s.2 h2 0 _ h
    · exact h

theorem rangeChain_forEach (T : Str) (styles : List Str) (S : List Span) :
    ∀ (i : Nat) (st : HState), RangeChain T 0 st.spanList st.curIndex →
      RangeChain T 0 (forEachSpan T styles S i st).spanList
        (forEachSpan T styles S i st).curIndex := by
  induction S with
  | nil => intro i st h; exact h
  | cons s rest ih =>
    intro i st h
    exact ih (i + 1) _ (rangeChain_step T styles st s i h)

theorem rangeChain_bounds (T : Str) :
    ∀ (xs : List Segment) (a b : Int), RangeChain T a xs b →
      a ≤ b ∧ (∀ g ∈ xs, a ≤ g.key.1 ∧ g.key.1 < g.key.2 ∧ g.key.2 ≤ b) ∧
      List.Pairwise (fun g h : Segment => g.key.2 ≤ h.key.1) xs := by
  intro xs
  induction xs with
  | nil =>
    intro a b h
    simp only [RangeChain] at h
    exact ⟨le_of_eq h, fun g hg => absurd hg (List.not_mem_nil g), List.Pairwise.nil⟩
  | cons g rest ih =>
    intro a b h
    obtain ⟨h1, h2, _, h4⟩ := h
    obtain ⟨hab, hmem, hpw⟩ := ih _ _ h4
    refine ⟨by omega, ?_, ?_⟩
    · intro x hx
      rcases List.mem_cons.1 hx with hx | hx
      · subst hx
        exact ⟨by omega, h2, hab⟩
      · have := hmem x hx
        exact ⟨by omega, this.2.1, this.2.2⟩
    · exact List.Pairwise.cons (fun x hx => (hmem x hx).1) hpw

theorem rangeChain_pushLast (T : Str) (st : HState) (h0 : 0 ≤ st.curIndex)
    (h : RangeChain T 0 st.spanList st.curIndex) :
    ∃ b, RangeChain T 0 (pushLast T st) b := by
  unfold pushLast
  split
  · next hlt =>
    rw [jsSlice_none_eq_length T _ h0]
    exact ⟨_, rangeChain_snoc T none st.curIndex _ hlt 0 st.spanList h⟩
  · exact ⟨_, h⟩

/-- C19. Segment-range invariant of `MultiSpanHighlight`: for every string and span list,
every emitted segment covers an index range `[a, b)` with `a < b`, the first range starts
at 0 and each range starts where the one before it ended; so the ranges are strictly
increasing and the `(a, b)` pairs used as keys are pairwise distinct. -/
theorem multiSpanHighlight_ranges (T : Str) (S : List Span) (styles : List Str) :
    (∃ b, RangeChain T 0 (emitted (MultiSpanHighlight (some T) (some S) (some styles))) b) ∧
    List.Pairwise (fun g h : Segment => g.key.1 < g.key.2 ∧ g.key.2 ≤ h.key.1 ∧ h.key.1 < h.key.2)
      (emitted (MultiSpanHighlight (some T) (some S) (some styles))) ∧
    ((emitted (MultiSpanHighlight (some T) (some S) (some styles))).map Segment.key).Nodup := by
  have hchain : ∃ b,
      RangeChain T 0 (emitted (MultiSpanHighlight (some T) (some S) (some styles))) b := by
    cases T with
    | nil => exact ⟨0, by simp [MultiSpanHighlight, truthy, emitted, RangeChain]⟩
    | cons c cs =>
      rw [MultiSpanHighlight_of_ne_nil _ S styles (List.cons_ne_nil _ _)]
      simp only [emitted, Option.getD_some]
      exact rangeChain_pushLast _ _
        (cursorInv_forEach (c :: cs) styles S 0 _ ⟨le_refl _, by simp [segmentsText]⟩).1
        (rangeChain_forEach (c :: cs) styles S 0 { curIndex := 0, spanList := [] } rfl)
  obtain ⟨b, hb⟩ := hchain
  obtain ⟨_, hmem, hpw⟩ := rangeChain_bounds T _ _ _ hb
  have hpw' : List.Pairwise
      (fun g h : Segment => g.key.1 < g.key.2 ∧ g.key.2 ≤ h.key.1 ∧ h.key.1 < h.key.2)
      (emitted (MultiSpanHighlight (some T) (some S) (some styles))) :=
    hpw.imp_of_mem fun {g h} hg hh hle => ⟨(hmem g hg).2.1, hle, (hmem h hh).2.1⟩
  refine ⟨⟨b, hb⟩, hpw', ?_⟩
  rw [List.Nodup, List.pairwise_map]
  refine hpw'.imp ?_
  intro g h hgh heq
  rw [heq] at hgh
  omega

/-- C20. A zero-length span is not a no-op on the segment sequence: in `"abcdef"` with the
ascending, non-overlapping spans `[(0,1), (3,3), (5,6)]` the zero-length span `(3,3)` lies
strictly inside the unhighlighted gap `[1, 5)`, and `MultiSpanHighlight` splits that gap
into two unstyled segments at 3; without the span the gap is one segment, so the segment
lists differ, while the concatenated text is the same. -/
theorem zero_length_span_splits_gap :
    ∃ (T : Str) (S : List Span) (styles : List Str) (k : Nat) (s : Int) (out out' : List Segment),
      SpansOver T S ∧ Ascending S ∧ styles.length = S.length ∧ S[k]? = some (s, s) ∧
      MultiSpanHighlight (some T) (some S) (some styles) = some out ∧
      MultiSpanHighlight (some T) (some (S.eraseIdx k)) (some (styles.eraseIdx k)) = some out' ∧
      out = [ { key := (0, 1), className := some "x".toList, text := "a".toList },
              { key := (1, s), className := none, text := "bc".toList },
              { key := (s, 5), className := none, text := "de".toList },
              { key := (5, 6), className := some "z".toList, text := "f".toList } ] ∧
      out' = [ { key := (0, 1), className := some "x".toList, text := "a".toList },
               { key := (1, 5), className := none, text := "bcde".toList },
               { key := (5, 6), className := some "z".toList, text := "f".toList } ] ∧
      out ≠ out' ∧ segmentsText out = segmentsText out' :=
  ⟨"abcdef".toList, [(0, 1), (3, 3), (5, 6)], ["x".toList, "y".toList, "z".toList], 1, 3,
    _, _, by decide, by decide, by decide, by decide, rfl, rfl, by decide, by decide,
    by decide, by decide⟩

/-! ## The legacy branch when the answer string does not occur -/

/-- When `best` does not occur in the passage, `indexOf` is `-1`: the head is the passage
without its last code unit and the tail starts at index `best.length - 1`. -/
theorem legacySplit_of_not_occurs (passage best : Str) (hb : best ≠ [])
    (h : ¬ ∃ k, OccursAt best passage k) :
    legacySplit passage best
      = (passage.dropLast, best, passage.drop (best.length - 1)) := by
  have hL : 0 < best.length := List.length_pos.2 hb
  have hhead : jsSlice passage 0 (some (-1)) = passage.dropLast := by
    have e : ((passage.length : Int) + -1).toNat = passage.length - 1 := by omega
    simp only [jsSlice, relIndex, lt_self_iff_false, if_false, Int.toNat_zero, Nat.zero_min,
      List.drop_zero, Nat.sub_zero, Int.reduceNeg, Int.reduceLT, if_true, e]
    exact (List.dropLast_eq_take passage).symm
  have htail : jsSlice passage (-1 + (best.length : Int)) none
      = passage.drop (best.length - 1) := by
    rw [jsSlice_none_of_nonneg _ _ (by omega)]
    have e : (-1 + (best.length : Int)).toNat = best.length - 1 := by omega
    rw [e]
  simp only [legacySplit, indexOf_of_not_occurs passage best h, hhead, htail]

/-- C21. Legacy branch with an absent substring: for a non-empty passage, question and
`best_span_str`, the legacy branch renders the three-span view whether or not
`best_span_str` occurs in the passage; head, `best_span_str` and tail concatenate to the
passage if and only if `best_span_str` occurs in it; when it does not occur, the head is
the passage without its last character. -/
theorem legacy_absent_substring (req : RequestData) (resp : ResponseData) (p q best : Str)
    (hp : req.passage = some p) (hpne : p ≠ []) (hq : req.question = some q) (hqne : q ≠ [])
    (hb : resp.best_span_str = some best) (hbne : best ≠ [])
    (hbr : branchOf resp = Branch.legacy) :
    AnswerByType (some req) (some resp) =
      Element.section
        [ { label := "Answer".toList, children := [Node.text best] },
          { label := "Passage Context".toList,
            children :=
              [ Node.span none (legacySplit p best).1,
                Node.span (some "highlight__answer".toList) best,
                Node.span none (legacySplit p best).2.2 ] },
          { label := "Question".toList, children := [Node.text q] } ]
        (Attention resp) ∧
    ((legacySplit p best).1 ++ best ++ (legacySplit p best).2.2 = p ↔ ∃ k, OccursAt best p k) ∧
    ((¬ ∃ k, OccursAt best p k) → (legacySplit p best).1 = p.dropLast) := by
  refine ⟨AnswerByType_legacy req resp p q best hp hpne hq hqne hb hbne hbr, ⟨?_, ?_⟩, ?_⟩
  · intro heq
    by_contra hno
    rw [legacySplit_of_not_occurs p best hbne hno] at heq
    have hlen := congrArg List.length heq
    have hP : 0 < p.length := List.length_pos.2 hpne
    have hL : 0 < best.length := List.length_pos.2 hbne
    simp only [List.length_append, List.length_dropLast, List.length_drop] at hlen
    omega
  · intro hocc
    obtain ⟨j, hidx, hj, _⟩ := indexOf_of_occurs p best hocc
    rw [legacySplit_of_indexOf p best j hidx]
    exact take_append_match_append_drop p best j hj
  · intro hno
    rw [legacySplit_of_not_occurs p best hbne hno]

theorem legacy_absent_substring_witness :
    AnswerByType (some ⟨some "the cat sat".toList, some "who".toList⟩)
        (some ⟨none, some "dog".toList, none, none, none⟩)
      = Element.section
          [ { label := "Answer".toList, children := [Node.text "dog".toList] },
            { label := "Passage Context".toList,
              children :=
                [ Node.span none "the cat sa".toList,
                  Node.span (some "highlight__answer".toList) "dog".toList,
                  Node.span none "e cat sat".toList ] },
            { label := "Question".toList, children := [Node.text "who".toList] } ]
          none :=
  (legacy_absent_substring ⟨some "the cat sat".toList, some "who".toList⟩
    ⟨none, some "dog".toList, none, none, none⟩
    "the cat sat".toList "who".toList "dog".toList rfl (by decide) rfl (by decide) rfl
    (by decide) (by decide)).1

/-! ## The first token of `ArithmeticEquation` -/

theorem stripLoop_head (s : Str) :
    (stripLoop s).head? ≠ some '+' ∧ (stripLoop s).head? ≠ some ' ' := by
  induction s with
  | nil => simp [stripLoop]
  | cons c cs ih =>
    by_cases h : c = '+' ∨ c = ' '
    · simp only [stripLoop, h, if_true]
      exact ih
    · simp only [stripLoop, h, if_false, List.head?_cons, ne_eq, Option.some.injEq]
      exact ⟨fun hc => h (Or.inl hc), fun hc => h (Or.inr hc)⟩

theorem filter_sign_of_leading_zeros (pre post : List SignedNumber) (n : SignedNumber)
    (hpre : ∀ m ∈ pre, m.sign = 0) (hn : n.sign ≠ 0) :
    ((pre ++ n :: post).filter fun m => decide (m.sign ≠ 0))
      = n :: post.filter fun m => decide (m.sign ≠ 0) := by
  have h1 : (pre.filter fun m => decide (m.sign ≠ 0)) = [] := by
    rw [List.filter_eq_nil_iff]
    intro m hm
    simp [hpre m hm]
  rw [List.filter_append, h1, List.nil_append, List.filter_cons_of_pos (by simpa using hn)]

/-- C22. A leading minus is kept by `ArithmeticEquation`: when the first entry with a
non-zero sign has a negative sign, the rendered text begins with `- ` followed by that
entry's value; and for every input the rendered text begins with neither `+` nor a
space. -/
theorem arithmeticEquation_leading_minus (pre post : List SignedNumber) (n : SignedNumber)
    (hpre : ∀ m ∈ pre, m.sign = 0) (hn : n.sign < 0) :
    (∃ rest, ArithmeticEquation (some (pre ++ n :: post))
      = some ('-' :: ' ' :: (numberToString n.value ++ rest))) ∧
    (∀ numbers : List SignedNumber, ∃ text, ArithmeticEquation (some numbers) = some text ∧
      text.head? ≠ some '+' ∧ text.head? ≠ some ' ') := by
  constructor
  · have hneg : ¬ n.sign > 0 := by omega
    have htok : signedToken n = '-' :: ' ' :: numberToString n.value := by
      simp only [signedToken, hneg, if_false]
      rfl
    refine ⟨(((post.filter fun m => decide (m.sign ≠ 0)).map signedToken).map
      fun e => " ".toList ++ e).flatten, ?_⟩
    simp only [ArithmeticEquation,
      filter_sign_of_leading_zeros pre post n hpre (by omega), List.map_cons,
      jsJoin_eq_intercalate, intercalate_cons, htok]
    simp [stripLoop]
  · intro numbers
    exact ⟨_, rfl, stripLoop_head _⟩

theorem arithmeticEquation_leading_minus_witness :
    ((∀ m ∈ [(⟨7, 0, (0, 1)⟩ : SignedNumber)], m.sign = 0) ∧ (-1 : Int) < 0) ∧
    ∃ rest, ArithmeticEquation (some [⟨7, 0, (0, 1)⟩, ⟨3, -1, (4, 5)⟩, ⟨5, 1, (8, 9)⟩])
      = some ('-' :: ' ' :: (numberToString 3 ++ rest)) :=
  ⟨⟨by decide, by decide⟩,
   (arithmeticEquation_leading_minus [⟨7, 0, (0, 1)⟩] [⟨5, 1, (8, 9)⟩] ⟨3, -1, (4, 5)⟩
     (by decide) (by decide)).1⟩

/-! ## The model registry -/

theorem apiUrl_of_selected (API_ROOT path : Str) (model : Option Str)
    (h : getProperty taskEndpoints (propertyKey (selectedModel model)) = Property.own path) :
    apiUrl API_ROOT model = API_ROOT ++ "/predict/".toList ++ path := by
  simp only [apiUrl, h, propertyText]

theorem url_ne_undefined (API_ROOT path : Str)
    (h : "/predict/".toList ++ path ≠ "/predict/undefined".toList) :
    API_ROOT ++ "/predict/".toList ++ path ≠ API_ROOT ++ "/predict/undefined".toList := by
  intro heq
  rw [List.append_assoc] at heq
  exact h (List.append_cancel_left heq)

/-- C23. Registry closure: every model name listed in `taskModels` is a key of
`taskEndpoints`, so for every model that can be selected, and for the default (no model,
or the empty name), `apiUrl` does not return the `/predict/undefined` URL. -/
theorem registry_closure (API_ROOT : Str) (m : TaskModel) (hm : m ∈ taskModels) :
    m.name ∈ taskEndpoints.map Prod.fst ∧
    apiUrl API_ROOT (some m.name) ≠ API_ROOT ++ "/predict/undefined".toList ∧
    apiUrl API_ROOT none ≠ API_ROOT ++ "/predict/undefined".toList ∧
    apiUrl API_ROOT (some []) ≠ API_ROOT ++ "/predict/undefined".toList := by
  have hnone : apiUrl API_ROOT none ≠ API_ROOT ++ "/predict/undefined".toList := by
    rw [apiUrl_of_selected API_ROOT "reading-comprehension".toList none (by decide)]
    exact url_ne_undefined _ _ (by decide)
  have hempty : apiUrl API_ROOT (some []) ≠ API_ROOT ++ "/predict/undefined".toList := by
    rw [apiUrl_of_selected API_ROOT "reading-comprehension".toList (some []) (by decide)]
    exact url_ne_undefined _ _ (by decide)
  simp only [taskModels, List.mem_cons, List.mem_singleton, List.not_mem_nil, or_false] at hm
  rcases hm with hm | hm
  · subst hm
    refine ⟨by decide, ?_, hnone, hempty⟩
    rw [apiUrl_of_own API_ROOT _ "reading-comprehension".toList (by decide) (by decide)]
    exact url_ne_undefined _ _ (by decide)
  · subst hm
    refine ⟨by decide, ?_, hnone, hempty⟩
    rw [apiUrl_of_own API_ROOT _ "naqanet-reading-comprehension".toList (by decide)
      (by decide)]
    exact url_ne_undefined _ _ (by decide)

theorem registry_closure_witness :
    (⟨"NAQANet (trained on DROP)".toList, "An augmented version of QANet that adds rudimentary numerical reasoning ability,<br/>trained on DROP (Dua et al., 2019), as published in the original DROP paper.".toList⟩
        : TaskModel) ∈ taskModels ∧
    apiUrl "https://demo".toList (some "NAQANet (trained on DROP)".toList)
      ≠ "https://demo".toList ++ "/predict/undefined".toList :=
  ⟨by decide,
   (registry_closure "https://demo".toList
     ⟨"NAQANet (trained on DROP)".toList, "An augmented version of QANet that adds rudimentary numerical reasoning ability,<br/>trained on DROP (Dua et al., 2019), as published in the original DROP paper.".toList⟩
     (by decide)).2.1⟩

/-! ## The arithmetic branch -/

theorem arithmetic_tag_ne :
    "arithmetic".toList ≠ "passage_span".toList ∧ "arithmetic".toList ≠ "question_span".toList ∧
      "arithmetic".toList ≠ "count".toList := by
  decide

/-- The `arithmetic` branch of `AnswerByType`, for a truthy question and passage and a
defined `numbers` and `value`. -/
theorem AnswerByType_arithmetic (req : RequestData) (resp : ResponseData) (ans : Answer)
    (p q : Str) (numbers : List SignedNumber) (value : Value)
    (hp : req.passage = some p) (hpne : p ≠ []) (hq : req.question = some q) (hqne : q ≠ [])
    (hans : resp.answer = some ans) (htype : ans.answer_type = some "arithmetic".toList)
    (hn : ans.numbers = some numbers) (hv : ans.value = some value) :
    AnswerByType (some req) (some resp) =
      Element.section
        [ { label := "Answer".toList, children := [Node.value value] },
          { label := "Explanation".toList,
            children :=
              [ Node.text "The model used the arithmetic expression ".toList,
                Node.arithmeticEquation (ArithmeticEquation (some numbers)),
                Node.text " = ".toList,
                Node.value value,
                Node.text ".".toList ] },
          { label := "Passage".toList,
            children := [Node.multiSpanHighlight
              (MultiSpanHighlight (some p) (some (numbers.map fun n => n.span))
                (some (numbers.map fun n =>
                  "highlight__num_".toList ++ numberToString n.sign)))] },
          { label := "Question".toList, children := [Node.text q] } ]
        (Attention resp) := by
  have hp' : truthy p = true := (truthy_eq_true_iff p).2 hpne
  have hq' : truthy q = true := (truthy_eq_true_iff q).2 hqne
  have h1 : ans.answer_type ≠ some "passage_span".toList := by
    rw [htype]
    exact fun h => arithmetic_tag_ne.1 (Option.some.inj h)
  have h2 : ans.answer_type ≠ some "question_span".toList := by
    rw [htype]
    exact fun h => arithmetic_tag_ne.2.1 (Option.some.inj h)
  have h3 : ans.answer_type ≠ some "count".toList := by
    rw [htype]
    exact fun h => arithmetic_tag_ne.2.2 (Option.some.inj h)
  unfold AnswerByType
  simp only [hans, Option.getD_some]
  rw [if_neg h1, if_neg h2, if_neg h3, if_pos htype]
  simp only [hp, hq, hn, hv, hp', hq', Bool.and_self, if_true]

theorem arithmeticEquation_filter (numbers : List SignedNumber) :
    ArithmeticEquation (some (numbers.filter fun n => decide (n.sign ≠ 0)))
      = ArithmeticEquation (some numbers) := by
  simp only [ArithmeticEquation, List.filter_filter, Bool.and_self]

/-- C24. The arithmetic branch highlights every number, not only those in the expression:
with answer type `arithmetic`, `numbers` and `value` present and a non-empty passage and
question, the span list passed to `MultiSpanHighlight` is the list of all the numbers'
spans in input order, entries of sign 0 included; the style list has the same length and
its i-th style is `highlight__num_` followed by the i-th number's sign; the expression text
is that of the entries with a non-zero sign only. -/
theorem arithmetic_branch_highlights_all (req : RequestData) (resp : ResponseData)
    (ans : Answer) (p q : Str) (numbers : List SignedNumber) (value : Value)
    (hp : req.passage = some p) (hpne : p ≠ []) (hq : req.question = some q) (hqne : q ≠ [])
    (hans : resp.answer = some ans) (htype : ans.answer_type = some "arithmetic".toList)
    (hn : ans.numbers = some numbers) (hv : ans.value = some value) :
    AnswerByType (some req) (some resp) =
      Element.section
        [ { label := "Answer".toList, children := [Node.value value] },
          { label := "Explanation".toList,
            children :=
              [ Node.text "The model used the arithmetic expression ".toList,
                Node.arithmeticEquation
                  (ArithmeticEquation (some (numbers.filter fun n => decide (n.sign ≠ 0)))),
                Node.text " = ".toList,
                Node.value value,
                Node.text ".".toList ] },
          { label := "Passage".toList,
            children := [Node.multiSpanHighlight
              (MultiSpanHighlight (some p) (some (numbers.map SignedNumber.span))
                (some (numbers.map fun n =>
                  "highlight__num_".toList ++ numberToString n.sign)))] },
          { label := "Question".toList, children := [Node.text q] } ]
        (Attention resp) ∧
    (numbers.map fun n => "highlight__num_".toList ++ numberToString n.sign).length
      = (numbers.map SignedNumber.span).length ∧
    (numbers.map SignedNumber.span).length = numbers.length ∧
    (∀ (i : Nat) (n : SignedNumber), numbers[i]? = some n →
      (numbers.map SignedNumber.span)[i]? = some n.span ∧
      (numbers.map fun n => "highlight__num_".toList ++ numberToString n.sign)[i]?
        = some ("highlight__num_".toList ++ numberToString n.sign)) ∧
    ArithmeticEquation (some (numbers.filter fun n => decide (n.sign ≠ 0)))
      = some (arithmeticEquationSpec numbers) := by
  have heq : ArithmeticEquation (some numbers) = some (arithmeticEquationSpec numbers) := by
    simp only [ArithmeticEquation, arithmeticEquationSpec, jsJoin_eq_intercalate,
      stripLoop_eq_dropWhile]
    have hf : (numbers.filter fun n => decide (n.sign ≠ 0))
        = numbers.filter fun n => !(n.sign == 0) := by
      congr 1
      funext n
      by_cases h : n.sign = 0 <;> simp [h]
    have hm : signedToken = specToken := funext signedToken_eq_specToken
    rw [hf, hm]
    rfl
  refine ⟨?_, by simp only [List.length_map], by simp only [List.length_map], ?_, ?_⟩
  · rw [arithmeticEquation_filter]
    exact AnswerByType_arithmetic req resp ans p q numbers value hp hpne hq hqne hans htype
      hn hv
  · intro i n hi
    simp only [List.getElem?_map, hi, Option.map_some', and_self]
  · rw [arithmeticEquation_filter]
    exact heq

theorem arithmetic_branch_highlights_all_witness :
    AnswerByType (some ⟨some "5 cats, 3 dogs, 9 lives".toList, some "How many more cats?".toList⟩)
        (some ⟨some ⟨some "arithmetic".toList, none, some (Value.num 2), none,
          some [⟨5, 1, (0, 1)⟩, ⟨3, -1, (8, 9)⟩, ⟨9, 0, (16, 17)⟩]⟩, none, none, none, none⟩)
      = Element.section
          [ { label := "Answer".toList, children := [Node.value (Value.num 2)] },
            { label := "Explanation".toList,
              children :=
                [ Node.text "The model used the arithmetic expression ".toList,
                  Node.arithmeticEquation (some "5 - 3".toList),
                  Node.text " = ".toList,
                  Node.value (Value.num 2),
                  Node.text ".".toList ] },
            { label := "Passage".toList,
              children := [Node.multiSpanHighlight
                (some [ { key := (0, 1), className := some "highlight__num_1".toList,
                          text := "5".toList },
                        { key := (1, 8), className := none, text := " cats, ".toList },
                        { key := (8, 9), className := some "highlight__num_-1".toList,
                          text := "3".toList },
                        { key := (9, 16), className := none, text := " dogs, ".toList },
                        { key := (16, 17), className := some "highlight__num_0".toList,
                          text := "9".toList },
                        { key := (17, 23), className := none, text := " lives".toList } ])] },
            { label := "Question".toList,
              children := [Node.text "How many more cats?".toList] } ]
          none :=
  (arithmetic_branch_highlights_all
    ⟨some "5 cats, 3 dogs, 9 lives".toList, some "How many more cats?".toList⟩
    ⟨some ⟨some "arithmetic".toList, none, some (Value.num 2), none,
      some [⟨5, 1, (0, 1)⟩, ⟨3, -1, (8, 9)⟩, ⟨9, 0, (16, 17)⟩]⟩, none, none, none, none⟩
    ⟨some "arithmetic".toList, none, some (Value.num 2), none,
      some [⟨5, 1, (0, 1)⟩, ⟨3, -1, (8, 9)⟩, ⟨9, 0, (16, 17)⟩]⟩
    "5 cats, 3 dogs, 9 lives".toList "How many more cats?".toList
    [⟨5, 1, (0, 1)⟩, ⟨3, -1, (8, 9)⟩, ⟨9, 0, (16, 17)⟩] (Value.num 2)
    rfl (by decide) rfl (by decide) rfl rfl rfl rfl).1

end ReadingComprehension
